import Mathlib

/-!
Verification of the nested-list arithmetic engine
(`crates/polars-core/src/series/arithmetic/list_borrowed.rs`).

Shallow embedding conventions:
* Leaf primitive values are modelled as unbounded `Int` with explicit
  wrapping (`% 2^w`) applied by the kernels where the source uses
  wrapping machine arithmetic.  Casting a leaf buffer to the output
  primitive dtype is value-preserving in the model (supertype casts are
  lossless on integers; exact float values are outside the model, see
  below).
* Float-typed kernels: the engine's claims never depend on inexact float
  values.  Division is modelled exactly (`Int.tdiv`, with `0` as the
  placeholder result at a zero denominator, where the real engine
  produces an IEEE infinity).  The *validity* behaviour — which is what
  the claims are about — is modelled faithfully: float dtypes skip the
  zero-denominator masking, exactly as `prepare_numeric_op_side_validities`
  does via `!T::Native::is_float()`.
* Uninitialised output-buffer slots (the Rust code allocates with
  `Vec::with_capacity` and `set_len`) are modelled as `0`.  Such slots
  are never referenced through the list offsets of a valid row.
* Fallible code returns `Except PolarsError`.
-/

namespace PolarsList

/-! ## Bitmaps, offsets and primitive arrays -/
abbrev Bitmap := List Bool

/-- `arrow::compute::utils::combine_validities_and`. -/
def combineValiditiesAnd : Option Bitmap → Option Bitmap → Option Bitmap
  | some l, some r => some (List.zipWith (· && ·) l r)
  | some v, none => some v
  | none, some v => some v
  | none, none => none

/-- An `OffsetsBuffer<i64>`: a monotone list of start offsets, one more
entry than there are rows.  Offsets are non-negative, so `Nat`. -/
abbrev Offs := List Nat

def offGet (o : Offs) (i : Nat) : Nat := o.getD i 0

/-- `OffsetsBuffer::len_proxy`: the number of rows. -/
def lenProxy (o : Offs) : Nat := o.length - 1

/-- `OffsetsBuffer::length_at`. -/
def lengthAt (o : Offs) (i : Nat) : Nat := offGet o (i + 1) - offGet o i

/-- `OffsetsBuffer::first`. -/
def offFirst (o : Offs) : Nat := offGet o 0

def offLast (o : Offs) : Nat := offGet o (o.length - 1)

/-- `OffsetsBuffer::range`. -/
def offRange (o : Offs) : Nat := offLast o - offFirst o

/-- Drill a row range through successive offset levels down to the leaf
buffer (`OffsetsBuffer::leaf_ranges_iter` / `leaf_full_start_end`). -/
def drillRange : List Offs → Nat → Nat → Nat × Nat
  | [], lo, hi => (lo, hi)
  | o :: os, lo, hi => drillRange os (offGet o lo) (offGet o hi)

/-- The flat leaf index range transitively owned by outer row `i`. -/
def leafRangeOfRow (levels : List Offs) (i : Nat) : Nat × Nat :=
  drillRange levels i (i + 1)

/-- Length of `OffsetsBuffer::leaf_full_start_end`. -/
def leafFullLen (levels : List Offs) : Nat :=
  let r := drillRange levels 0 (lenProxy (levels.headD []))
  r.2 - r.1

/-- A rechunked `PrimitiveArray`: values plus optional validity. -/
structure PrimArray where
  values : List Int
  validity : Option Bitmap
deriving DecidableEq, Repr

def PrimArray.size (a : PrimArray) : Nat := a.values.length

def PrimArray.isValidAt (a : PrimArray) (i : Nat) : Bool :=
  match a.validity with
  | none => true
  | some v => v.getD i true

def PrimArray.getV (a : PrimArray) (i : Nat) : Int := a.values.getD i 0

/-! ## Dtypes -/
/-- The numeric leaf dtypes.  Boolean/null leaves are outside the model:
per the spec they coerce to a numeric supertype before the engine runs. -/
inductive DType
  | i8 | i16 | i32 | i64 | u8 | u16 | u32 | u64 | f32 | f64
deriving DecidableEq, Repr

def DType.isFloat : DType → Bool
  | .f32 | .f64 => true
  | _ => false

def DType.isIntegerDt (t : DType) : Bool := !t.isFloat

def DType.isSignedInt : DType → Bool
  | .i8 | .i16 | .i32 | .i64 => true
  | _ => false

def DType.bitWidth : DType → Nat
  | .i8 | .u8 => 8
  | .i16 | .u16 => 16
  | .i32 | .u32 => 32
  | .i64 | .u64 | .f64 => 64
  | .f32 => 32

def mkSignedOfWidth (w : Nat) : DType :=
  if w ≤ 8 then .i8 else if w ≤ 16 then .i16 else if w ≤ 32 then .i32 else .i64

def mkUnsignedOfWidth (w : Nat) : DType :=
  if w ≤ 8 then .u8 else if w ≤ 16 then .u16 else if w ≤ 32 then .u32 else .u64

/-- Modelled from the spec: `try_get_supertype` (polars-core dtype code,
not under `src/`): "least type that losslessly (or per op's promotion
rule) holds values of both operand leaf types".  Restricted to the
numeric dtypes of the model. -/
def DType.st2 (a b : DType) : DType :=
  if a = b then a
  else if a.isFloat || b.isFloat then
    -- any 64-bit operand, or a non-small integer, forces f64
    if a = .f64 || b = .f64 then .f64
    else
      -- one of them is f32; the other is f32 or an integer
      let other := if a.isFloat then b else a
      if other.isFloat || other.bitWidth ≤ 16 then .f32 else .f64
  else if a.isSignedInt = b.isSignedInt then
    -- same signedness: larger width wins
    if a.bitWidth ≤ b.bitWidth then
      (if a.isSignedInt then mkSignedOfWidth b.bitWidth else mkUnsignedOfWidth b.bitWidth)
    else
      (if a.isSignedInt then mkSignedOfWidth a.bitWidth else mkUnsignedOfWidth a.bitWidth)
  else
    -- mixed signedness: smallest signed holding both, f64 when u64 involved
    let sw := if a.isSignedInt then a.bitWidth else b.bitWidth
    let uw := if a.isSignedInt then b.bitWidth else a.bitWidth
    if uw = 64 then .f64
    else mkSignedOfWidth (max sw (2 * uw))

/-- Column dtypes: a numeric primitive or an arbitrarily nested list. -/
inductive DataType
  | prim (t : DType)
  | list (inner : DataType)
deriving DecidableEq, Repr

def DataType.leafDtype : DataType → DType
  | .prim t => t
  | .list d => d.leafDtype

def DataType.castLeaf : DataType → DType → DataType
  | .prim _, t => .prim t
  | .list d, t => .list (d.castLeaf t)

def DataType.depth : DataType → Nat
  | .prim _ => 0
  | .list d => d.depth + 1

def DataType.isPrim : DataType → Bool
  | .prim _ => true
  | .list _ => false

def nestedListDtype : Nat → DType → DataType
  | 0, t => .prim t
  | n + 1, t => .list (nestedListDtype n t)

/-! ## The operation and its kernels -/
inductive NumericListOp
  | add | sub | mul | div | rem | floorDiv
deriving DecidableEq, Repr

/-- `NumericListOp::try_get_leaf_supertype`.  The underlying
`try_get_supertype` is total on the model's numeric dtypes. -/
def NumericListOp.tryGetLeafSupertype (op : NumericListOp)
    (primDtypeLhs primDtypeRhs : DType) : DType :=
  let dtype := DType.st2 primDtypeLhs primDtypeRhs
  if op = .div then (if dtype.isFloat then dtype else .f64) else dtype

/-- Wrapping reduction into the dtype's machine range; floats are the
identity (leaf values are exact integers in the model). -/
def wrapTo (t : DType) (x : Int) : Int :=
  if t.isFloat then x
  else if t.isSignedInt then
    (x + 2 ^ (t.bitWidth - 1)) % 2 ^ t.bitWidth - 2 ^ (t.bitWidth - 1)
  else x % 2 ^ t.bitWidth

def pnAdd (t : DType) (a b : Int) : Int := wrapTo t (a + b)

def pnSub (t : DType) (a b : Int) : Int := wrapTo t (a - b)

def pnMul (t : DType) (a b : Int) : Int := wrapTo t (a * b)

/-- `PlNumArithmetic::legacy_div`: truncating division on integers; on
floats, real division (exact in the model only at divisible operands;
a zero denominator yields the placeholder `0` where the real engine
produces an IEEE infinity — no claim depends on that value). -/
def pnLegacyDiv (t : DType) (a b : Int) : Int :=
  if b = 0 then 0 else wrapTo t (Int.tdiv a b)

def pnMod (t : DType) (a b : Int) : Int :=
  if b = 0 then 0 else wrapTo t (a - b * Int.fdiv a b)

def pnFloorDiv (t : DType) (a b : Int) : Int :=
  if b = 0 then 0 else wrapTo t (Int.fdiv a b)

/-- The kernel selection of `with_match_numeric_list_op!`: the `swapped`
flag reverses the argument order of the non-commutative ops and is
ignored by `add` and `mul`. -/
def NumericListOp.applyBin (op : NumericListOp) (t : DType) (swapped : Bool)
    (l r : Int) : Int :=
  match op with
  | .add => pnAdd t l r
  | .sub => if swapped then pnSub t r l else pnSub t l r
  | .mul => pnMul t l r
  | .div => if swapped then pnLegacyDiv t r l else pnLegacyDiv t l r
  | .rem => if swapped then pnMod t r l else pnMod t l r
  | .floorDiv => if swapped then pnFloorDiv t r l else pnFloorDiv t l r

/-- `tot_ne_kernel_broadcast(&0)`. -/
def totNeZero (vals : List Int) : Bitmap := vals.map (fun v => decide (v ≠ 0))

/-- `NumericListOp::prepare_numeric_op_side_validities`: for integer
`div`, `rem`, `floor_div`, null out the denominator side where it is 0.
Floats are left alone. -/
def NumericListOp.prepareNumericOpSideValidities (op : NumericListOp)
    (t : DType) (lhs rhs : PrimArray) (swapped : Bool) : PrimArray × PrimArray :=
  if t.isFloat then (lhs, rhs)
  else
    match op with
    | .div | .rem | .floorDiv =>
      if swapped then
        ({ lhs with validity := combineValiditiesAnd lhs.validity (some (totNeZero lhs.values)) },
         rhs)
      else
        (lhs,
         { rhs with validity := combineValiditiesAnd rhs.validity (some (totNeZero rhs.values)) })
    | _ => (lhs, rhs)

/-- `NumericListOp::apply_array_to_scalar`.  The `ArithmeticKernel`
scalar kernels live outside `src/`.  Modelled from the spec: "Integer
zero-denominator masking is handled inside the specialized kernel"
(scalar denominator of 0 nulls every output leaf; with `swapped` the
array holds the denominators and they are masked elementwise; floats
follow IEEE and are never masked). -/
def NumericListOp.applyArrayToScalar (op : NumericListOp) (t : DType)
    (arr : PrimArray) (r : Int) (swapped : Bool) : PrimArray :=
  let vals := arr.values.map (fun l => op.applyBin t swapped l r)
  let denomMask : Option Bitmap :=
    if t.isFloat then none
    else
      match op with
      | .div | .rem | .floorDiv =>
        if swapped then some (totNeZero arr.values)
        else if r = 0 then some (List.replicate arr.size false) else none
      | _ => none
  { values := vals, validity := combineValiditiesAnd arr.validity denomMask }

/-! ## Series -/
/-- A rechunked `Series`: one physical chunk, carrying per-list-level
offsets and validities (`list_offsets_and_validities_recursive`,
outermost first; empty for a primitive series) above a leaf primitive
array. -/
structure Series where
  name : String
  dtype : DataType
  offsets : List Offs
  validities : List (Option Bitmap)
  leaf : PrimArray
deriving DecidableEq, Repr

def Series.len (s : Series) : Nat :=
  match s.offsets with
  | [] => s.leaf.size
  | o :: _ => lenProxy o

/-- `Series::rechunk_validity`, the outer validity of the column. -/
def Series.rechunkValidity (s : Series) : Option Bitmap :=
  match s.offsets with
  | [] => s.leaf.validity
  | _ => s.validities.headD none

/-- `Series::default()`. -/
def Series.defaultS : Series :=
  { name := "", dtype := .prim .i64, offsets := [], validities := [], leaf := ⟨[], none⟩ }

/-- One side's `(Vec<OffsetsBuffer>, Vec<Option<Bitmap>>, Series)`. -/
structure SideData where
  offsets : List Offs
  validities : List (Option Bitmap)
  series : Series
deriving DecidableEq, Repr

def Series.sideData (s : Series) : SideData := ⟨s.offsets, s.validities, s⟩

/-! ## Errors and results -/
inductive PolarsError
  | invalidOperation
  | shapeMismatchLengths (lenLhs lenRhs : Nat)
  | shapeMismatchAt (i lhsLen rhsLen : Nat)
  | internalUnreachable
deriving DecidableEq, Repr

/-- The output `ListChunked` (already a single chunk): name, leaf dtype
and the nested offsets/validities above the leaf result array. -/
structure ListResult where
  name : String
  leafDtype : DType
  offsets : List Offs
  validities : List (Option Bitmap)
  leaf : PrimArray
deriving DecidableEq, Repr

def ListResult.dtype (r : ListResult) : DataType :=
  nestedListDtype r.offsets.length r.leafDtype

def ListResult.len (r : ListResult) : Nat := lenProxy (r.offsets.headD [])

def emptyLevelsOffsets : DataType → List Offs
  | .prim _ => []
  | .list d => [0] :: emptyLevelsOffsets d

def emptyLevelsValidities : DataType → List (Option Bitmap)
  | .prim _ => []
  | .list d => none :: emptyLevelsValidities d

/-- `ListChunked::full_null_with_dtype(name, len, inner_dtype)`. -/
def fullNullWithDtype (name : String) (len : Nat) (inner : DataType) : ListResult :=
  { name := name
    leafDtype := inner.leafDtype
    offsets := List.replicate (len + 1) 0 :: emptyLevelsOffsets inner
    validities := some (List.replicate len false) :: emptyLevelsValidities inner
    leaf := ⟨[], none⟩ }

/-! ## The helper state and the planner -/
inductive BinaryOpApplyType
  | listToList | listToPrimitive | primitiveToList
deriving DecidableEq, Repr

inductive Broadcast
  | left | right | noBroadcast
deriving DecidableEq, Repr

structure BinHelper where
  op : NumericListOp
  outputName : String
  opApplyType : BinaryOpApplyType
  broadcast : Broadcast
  outputDtype : DataType
  outputPrimitiveDtype : DType
  outputLen : Nat
  outerValidity : Bitmap
  dataLhs : SideData
  dataRhs : SideData
  listToPrimLhs : Option (PrimArray × Nat)
  swapped : Bool
deriving DecidableEq, Repr

/-- The outer-validity pre-combine of `try_new` (the Rust `match` over
`(op_apply_type, broadcast, validity_lhs, validity_rhs)`, arms expanded
in source order), materialized with `unwrap_or(all-true)`. -/
def computeOuterValidity (apt : BinaryOpApplyType) (bc : Broadcast)
    (validityLhs validityRhs : Option Bitmap) (outputLen : Nat) : Bitmap :=
  (match apt, bc with
   | .listToList, .noBroadcast => combineValiditiesAnd validityLhs validityRhs
   | .listToList, .right => validityLhs
   | .listToPrimitive, .noBroadcast => validityLhs
   | .listToPrimitive, .right => validityLhs
   | .listToList, .left => validityRhs
   | .primitiveToList, .noBroadcast => validityRhs
   | .primitiveToList, .left => validityRhs
   | .listToPrimitive, .left => none
   | .primitiveToList, .right => none
  ).getD (List.replicate outputLen true)

def DataType.innerOf : DataType → DataType
  | .list d => d
  | d => d

/-- `validity.as_ref().map_or(false, |x| !x.get_bit(0))`. -/
def outerNullAt0 : Option Bitmap → Bool
  | some v => !v.getD 0 true
  | none => false

/-- Shape classification of `try_new` (the `match (dtype_lhs, dtype_rhs)`
over the operand dtypes): the application type together with the list
side's dtype. -/
def applyTypeOf (dtypeLhs dtypeRhs : DataType) :
    Except PolarsError (BinaryOpApplyType × DataType) :=
  match dtypeLhs, dtypeRhs with
  | .list a, .list b =>
    -- both inner dtypes must be numeric (boolean/null coerce upstream)
    if a.isPrim && b.isPrim then .ok (.listToList, .list a)
    else .error .invalidOperation
  | .list a, .prim _ => .ok (.listToPrimitive, .list a)
  | .prim _, .list b => .ok (.primitiveToList, .list b)
  | _, _ => .error .invalidOperation

/-- Length classification of `try_new` (the `match (len_lhs, len_rhs)`):
equal lengths → no broadcast; one side of length 1 → broadcast that
side; otherwise a `ShapeMismatch` error. -/
def classifyLengths (lenLhs lenRhs : Nat) : Except PolarsError (Broadcast × Nat) :=
  if lenLhs = lenRhs then .ok (.noBroadcast, lenLhs)
  else if lenLhs = 1 then .ok (.left, lenRhs)
  else if lenRhs = 1 then .ok (.right, lenLhs)
  else .error (.shapeMismatchLengths lenLhs lenRhs)

/-- The short-circuit test of `try_new`: empty output, or a unit-length
side that participates as a list and is itself null at row 0. -/
def shortCircuitNull (opApplyType : BinaryOpApplyType) (outputLen lenLhs lenRhs : Nat)
    (validityLhs validityRhs : Option Bitmap) : Prop :=
  outputLen = 0
  ∨ (lenLhs = 1
     ∧ (opApplyType = .listToList ∨ opApplyType = .listToPrimitive)
     ∧ outerNullAt0 validityLhs = true)
  ∨ (lenRhs = 1
     ∧ (opApplyType = .listToList ∨ opApplyType = .primitiveToList)
     ∧ outerNullAt0 validityRhs = true)

instance (apt : BinaryOpApplyType) (outputLen lenLhs lenRhs : Nat)
    (vl vr : Option Bitmap) :
    Decidable (shortCircuitNull apt outputLen lenLhs lenRhs vl vr) := by
  unfold shortCircuitNull; infer_instance

/-- `BinaryListNumericOpHelper::try_new`. -/
def BinHelper.tryNew (op : NumericListOp) (outputName : String)
    (dtypeLhs dtypeRhs : DataType) (lenLhs lenRhs : Nat)
    (dataLhs dataRhs : SideData)
    (validityLhs validityRhs : Option Bitmap) :
    Except PolarsError (BinHelper ⊕ ListResult) :=
  let primDtypeLhs := dtypeLhs.leafDtype
  let primDtypeRhs := dtypeRhs.leafDtype
  let outputPrimitiveDtype := op.tryGetLeafSupertype primDtypeLhs primDtypeRhs
  match applyTypeOf dtypeLhs dtypeRhs with
  | .error e => .error e
  | .ok (opApplyType, outputDtype0) =>
    let outputDtype := outputDtype0.castLeaf outputPrimitiveDtype
    match classifyLengths lenLhs lenRhs with
    | .error e => .error e
    | .ok (broadcast, outputLen) =>
      let outputInnerDtype := outputDtype.innerOf
      if shortCircuitNull opApplyType outputLen lenLhs lenRhs validityLhs validityRhs
      then
        .ok (.inr (fullNullWithDtype outputName outputLen outputInnerDtype))
      else
        .ok (.inl
          { op := op
            outputName := outputName
            opApplyType := opApplyType
            broadcast := broadcast
            outputDtype := outputDtype
            outputPrimitiveDtype := outputPrimitiveDtype
            outputLen := outputLen
            outerValidity :=
              computeOuterValidity opApplyType broadcast validityLhs validityRhs outputLen
            dataLhs := dataLhs
            dataRhs := dataRhs
            listToPrimLhs := none
            swapped := false })

/-! ## Broadcast materialization -/
/-- Offsets rebuilt from a list of row lengths (a canonical, 0-based
offsets buffer). -/
def offsetsFromLengths (ls : List Nat) : Offs := ls.scanl (· + ·) 0

/-- Walks the offset/validity levels of a unit-row list column and
produces the levels of that row repeated `n` times, returning also the
leaf index range of the original row (`ChunkedArray::new_from_index(0, n)`
followed by `rechunk`, level part). -/
def sliceRepLevels : List Offs → List (Option Bitmap) → Nat → Nat → Nat →
    List Offs × List (Option Bitmap) × Nat × Nat
  | [], _, lo, hi, _ => ([], [], lo, hi)
  | o :: os, vs, lo, hi, n =>
    let lens := (List.range (hi - lo)).map (fun j => lengthAt o (lo + j))
    let newOff := offsetsFromLengths ((List.replicate n lens).flatten)
    let slicedV := (vs.headD none).map
      (fun bm => (List.range (hi - lo)).map (fun j => bm.getD (lo + j) true))
    let newV := slicedV.map (fun sv => (List.replicate n sv).flatten)
    let rest := sliceRepLevels os vs.tail (offGet o lo) (offGet o hi) n
    (newOff :: rest.1, newV :: rest.2.1, rest.2.2)

/-- The leaf slice `[lo, hi)` repeated `n` times. -/
def materializeLeafSlice (leaf : PrimArray) (lo hi n : Nat) : PrimArray :=
  { values :=
      (List.replicate n ((List.range (hi - lo)).map (fun j => leaf.getV (lo + j)))).flatten
    validity :=
      leaf.validity.map (fun _ =>
        (List.replicate n ((List.range (hi - lo)).map (fun j => leaf.isValidAt (lo + j)))).flatten) }

/-- `new_from_index(0, n).rechunk()` on a unit-length list column, with
the leaves cast to the output primitive dtype (value-preserving in the
model). -/
def broadcastUnitList (s : Series) (n : Nat) (outLeafD : DType) : Series :=
  let rep := sliceRepLevels s.offsets s.validities 0 1 n
  { name := s.name
    dtype := s.dtype.castLeaf outLeafD
    offsets := rep.1
    validities := rep.2.1
    leaf := materializeLeafSlice s.leaf rep.2.2.1 rep.2.2.2 n }

/-- `BinaryListNumericOpHelper::materialize_broadcasted_list`: returns
the owned leaf buffer (with its value count) and the replacement
side-data (whose `Series` field becomes `Series::default()`). -/
def materializeBroadcastedList (sideData : SideData) (outputLen : Nat)
    (outputPrimitiveDtype : DType) : (PrimArray × Nat) × SideData :=
  let ca := broadcastUnitList sideData.series outputLen outputPrimitiveDtype
  let nValues := leafFullLen ca.offsets
  ((ca.leaf, nValues), ⟨ca.offsets, ca.validities, Series.defaultS⟩)

/-! ## The write loops of the physical impls -/
/-- The inner `for i in 0..len` loop writing `g j` at `start + j`. -/
def writeRowVals (start len : Nat) (g : Nat → Int) (base : List Int) : List Int :=
  (List.range len).foldl (fun acc j => acc.set (start + j) (g j)) base

/-- The in-place variant `*l = OP(*l, r)` (reads the current buffer). -/
def mutRowVals (start len : Nat) (f : Int → Int) (base : List Int) : List Int :=
  (List.range len).foldl (fun acc j => acc.set (start + j) (f (acc.getD (start + j) 0))) base

/-- The validity-combine inner loop: `out[l_idx] := out[l_idx] & r(j)`. -/
def andRowBits (start len : Nat) (rbit : Nat → Bool) (base : List Bool) : List Bool :=
  (List.range len).foldl
    (fun acc j => acc.set (start + j) (acc.getD (start + j) true && rbit j)) base

/-- Output values of `ListToList, NoBroadcast` (the mismatch counter of
the same Rust loop is modelled separately by `mismatchPosNoBroadcast`). -/
def ltlNoBroadcastOut (op : NumericListOp) (t : DType) (swapped : Bool)
    (offL offR : Offs) (arrL arrR : PrimArray) : List Int :=
  (List.range (lenProxy offL)).foldl
    (fun acc i =>
      writeRowVals (offGet offL i) (min (lengthAt offL i) (lengthAt offR i))
        (fun j => op.applyBin t swapped (arrL.getV (offGet offL i + j)) (arrR.getV (offGet offR i + j)))
        acc)
    (List.replicate arrL.size 0)

/-- The cursor loop of `ListToList, NoBroadcast`, over the first `n`
rows. -/
def mismatchCursorNB (offL offR : Offs) (outer : Bitmap) (n : Nat) : Nat :=
  (List.range n).foldl
    (fun pos i =>
      if pos = i ∧ (lengthAt offL i = lengthAt offR i ∨ outer.getD i true = false)
      then pos + 1 else pos)
    0

/-- Mismatch cursor of `ListToList, NoBroadcast`. -/
def mismatchPosNoBroadcast (offL offR : Offs) (outer : Bitmap) : Nat :=
  mismatchCursorNB offL offR outer (lenProxy offL)

/-- Output values of `ListToList, Broadcast::Right`. -/
def ltlBroadcastRightOut (op : NumericListOp) (t : DType) (swapped : Bool)
    (offL : Offs) (rhsStart width : Nat) (arrL arrR : PrimArray) : List Int :=
  (List.range (lenProxy offL)).foldl
    (fun acc i =>
      writeRowVals (offGet offL i) (min (lengthAt offL i) width)
        (fun j => op.applyBin t swapped (arrL.getV (offGet offL i + j)) (arrR.getV (rhsStart + j)))
        acc)
    (List.replicate arrL.size 0)

/-- The cursor loop of `ListToList, Broadcast::Right`, over the first
`n` rows. -/
def mismatchCursorRight (offL : Offs) (width : Nat) (outer : Bitmap) (n : Nat) : Nat :=
  (List.range n).foldl
    (fun pos i =>
      if (lengthAt offL i = width ∧ pos = i) ∨ outer.getD i true = false
      then pos + 1 else pos)
    0

/-- Mismatch cursor of `ListToList, Broadcast::Right`. -/
def mismatchPosBroadcastRight (offL : Offs) (width : Nat) (outer : Bitmap) : Nat :=
  mismatchCursorRight offL width outer (lenProxy offL)

/-- `check_mismatch_pos`. -/
def checkMismatchPos (pos : Nat) (offL offR : Offs) : Except PolarsError Unit :=
  if pos < lenProxy offL then
    .error (.shapeMismatchAt pos (lengthAt offL pos)
      (lengthAt offR (if lenProxy offR = 1 then 0 else pos)))
  else .ok ()

/-- `combine_validities_list_to_list_no_broadcast`. -/
def combineValiditiesListToListNoBroadcast (offL offR : Offs)
    (validityLhs validityRhs : Option Bitmap) (lenLhs : Nat) : Option Bitmap :=
  let loop : Bitmap → Bitmap → Bitmap := fun base r =>
    (List.range (lenProxy offL)).foldl
      (fun acc i =>
        andRowBits (offGet offL i) (min (lengthAt offL i) (lengthAt offR i))
          (fun j => r.getD (offGet offR i + j) true) acc)
      base
  match validityLhs, validityRhs with
  | some l, some r => some (loop l r)
  | some v, none => some v
  | none, some r => some (loop (List.replicate lenLhs true) r)
  | none, none => none

/-- `combine_validities_list_to_list_broadcast_right`. -/
def combineValiditiesListToListBroadcastRight (offL : Offs)
    (validityLhs validityRhs : Option Bitmap) (lenLhs width rhsStart : Nat) :
    Option Bitmap :=
  let loop : Bitmap → Bitmap → Bitmap := fun base r =>
    (List.range (lenProxy offL)).foldl
      (fun acc i =>
        andRowBits (offGet offL i) (min (lengthAt offL i) width)
          (fun j => r.getD (rhsStart + j) true) acc)
      base
  match validityLhs, validityRhs with
  | some l, some r => some (loop l r)
  | some v, none => some v
  | none, some r => some (loop (List.replicate lenLhs true) r)
  | none, none => none

/-- `combine_validities_list_to_primitive_no_broadcast`: every leaf
under outer row `i` inherits the rhs validity bit at `i`. -/
def combineValiditiesListToPrimNoBroadcast (offLevels : List Offs)
    (validityLhs validityRhs : Option Bitmap) (lenLhs : Nat) : Option Bitmap :=
  let nRows := lenProxy (offLevels.headD [])
  let loop : Bitmap → Bitmap → Bitmap := fun base r =>
    (List.range nRows).foldl
      (fun acc i =>
        let lr := leafRangeOfRow offLevels i
        andRowBits lr.1 (lr.2 - lr.1) (fun _ => r.getD i true) acc)
      base
  match validityLhs, validityRhs with
  | some l, some r => some (loop l r)
  | some v, none => some v
  | none, some r => some (loop (List.replicate lenLhs true) r)
  | none, none => none

/-- Output values of `ListToPrimitive, NoBroadcast` (fresh buffer). -/
def ltpNoBroadcastOut (op : NumericListOp) (t : DType) (swapped : Bool)
    (offLevels : List Offs) (arrL arrR : PrimArray) : List Int :=
  (List.range (lenProxy (offLevels.headD []))).foldl
    (fun acc i =>
      let lr := leafRangeOfRow offLevels i
      writeRowVals lr.1 (lr.2 - lr.1)
        (fun j => op.applyBin t swapped (arrL.getV (lr.1 + j)) (arrR.getV i)) acc)
    (List.replicate arrL.size 0)

/-- Output values of `ListToPrimitive, NoBroadcast` over the scratch
buffer of a materialized broadcast (in-place). -/
def ltpNoBroadcastInPlace (op : NumericListOp) (t : DType) (swapped : Bool)
    (offLevels : List Offs) (baseVals : List Int) (arrR : PrimArray) : List Int :=
  (List.range (lenProxy (offLevels.headD []))).foldl
    (fun acc i =>
      let lr := leafRangeOfRow offLevels i
      mutRowVals lr.1 (lr.2 - lr.1)
        (fun l => op.applyBin t swapped l (arrR.getV i)) acc)
    baseVals

/-! ## Result assembly and the executor -/
/-- `BinaryListNumericOpHelper::finish_offsets_and_validities`: wrap the
leaf result with the given offsets and validities, replacing the
outermost validity with the pre-combined outer validity. -/
def BinHelper.finishOffsetsAndValidities (h : BinHelper) (leafArr : PrimArray)
    (offsets : List Offs) (validities : List (Option Bitmap)) : ListResult :=
  { name := h.outputName
    leafDtype := h.outputPrimitiveDtype
    offsets := offsets
    validities := some h.outerValidity :: validities.drop 1
    leaf := leafArr }

/-- The call-site dispatch of `prepare_numeric_op_side_validities` in
`_finish_impl`: `(ListToPrimitive, Right)` skips it (the scalar kernel
handles validities), a materialized-scratch lhs defers it to the
in-place path, anything else runs it. -/
def BinHelper.prepForImpl (h : BinHelper) (primLhs primRhs : PrimArray) :
    PrimArray × PrimArray :=
  match h.opApplyType, h.broadcast with
  | .listToPrimitive, .right => (primLhs, primRhs)
  | _, _ =>
    if h.listToPrimLhs.isNone then
      h.op.prepareNumericOpSideValidities h.outputPrimitiveDtype primLhs primRhs h.swapped
    else (primLhs, primRhs)

/-- `BinaryListNumericOpHelper::_finish_impl` (the physical codepaths). -/
def BinHelper.finishImpl (h : BinHelper) (primLhs primRhs : PrimArray) :
    Except PolarsError ListResult :=
  let t := h.outputPrimitiveDtype
  let prepared := h.prepForImpl primLhs primRhs
  let arrLhs := prepared.1
  let arrRhs := prepared.2
  match h.opApplyType, h.broadcast with
  | .listToList, .noBroadcast =>
    let offL := h.dataLhs.offsets.headD []
    let offR := h.dataRhs.offsets.headD []
    let outVec := ltlNoBroadcastOut h.op t h.swapped offL offR arrLhs arrRhs
    let pos := mismatchPosNoBroadcast offL offR h.outerValidity
    match checkMismatchPos pos offL offR with
    | .error e => .error e
    | .ok _ =>
      let leafValidity :=
        combineValiditiesListToListNoBroadcast offL offR arrLhs.validity arrRhs.validity
          arrLhs.size
      .ok (h.finishOffsetsAndValidities ⟨outVec, leafValidity⟩ h.dataLhs.offsets
        h.dataLhs.validities)
  | .listToList, .right =>
    let offL := h.dataLhs.offsets.headD []
    let offR := h.dataRhs.offsets.headD []
    let rhsStart := offFirst offR
    let width := offRange offR
    let outVec := ltlBroadcastRightOut h.op t h.swapped offL rhsStart width arrLhs arrRhs
    let pos := mismatchPosBroadcastRight offL width h.outerValidity
    match checkMismatchPos pos offL offR with
    | .error e => .error e
    | .ok _ =>
      let leafValidity :=
        combineValiditiesListToListBroadcastRight offL arrLhs.validity arrRhs.validity
          arrLhs.size width rhsStart
      .ok (h.finishOffsetsAndValidities ⟨outVec, leafValidity⟩ h.dataLhs.offsets
        h.dataLhs.validities)
  | .listToPrimitive, .noBroadcast =>
    match h.listToPrimLhs with
    | none =>
      let offLevels := h.dataLhs.offsets
      let outVec := ltpNoBroadcastOut h.op t h.swapped offLevels arrLhs arrRhs
      let leafValidity :=
        combineValiditiesListToPrimNoBroadcast offLevels arrLhs.validity arrRhs.validity
          arrLhs.size
      .ok (h.finishOffsetsAndValidities ⟨outVec, leafValidity⟩ h.dataLhs.offsets
        h.dataLhs.validities)
    | some scratchPair =>
      -- the LHS is the unique buffer from a materialized broadcast;
      -- results are stored back into it
      let offLevels := h.dataLhs.offsets
      let scratch := scratchPair.1
      let prepScratch := h.op.prepareNumericOpSideValidities t scratch arrRhs h.swapped
      let scratchArr := prepScratch.1
      let arrRhs2 := prepScratch.2
      let outVals := ltpNoBroadcastInPlace h.op t h.swapped offLevels scratchArr.values arrRhs2
      let leafValidity :=
        combineValiditiesListToPrimNoBroadcast offLevels scratchArr.validity arrRhs2.validity
          scratchArr.size
      .ok (h.finishOffsetsAndValidities ⟨outVals, leafValidity⟩ h.dataLhs.offsets
        h.dataLhs.validities)
  | .listToPrimitive, .right =>
    -- rhs is a single primitive
    if arrRhs.isValidAt 0 = false then
      -- single NULL: all-NULL leaf validity over the lhs values
      .ok (h.finishOffsetsAndValidities
        { arrLhs with validity := some (List.replicate arrLhs.size false) }
        h.dataLhs.offsets h.dataLhs.validities)
    else
      let r := arrRhs.getV 0
      let arr := h.op.applyArrayToScalar t arrLhs r h.swapped
      .ok (h.finishOffsetsAndValidities arr h.dataLhs.offsets h.dataLhs.validities)
  | _, _ =>
    -- combinations rewritten away by `finish`; `unreachable!()` in the source
    .error .internalUnreachable

/-- `_finish_impl_dispatch`: extract and cast the leaf arrays (casting is
value-preserving in the model) and run the physical impl. -/
def BinHelper.finishImplDispatch (h : BinHelper) : Except PolarsError ListResult :=
  h.finishImpl h.dataLhs.series.leaf h.dataRhs.series.leaf

/-- `BinaryListNumericOpHelper::finish`: normalization by operand swap
and broadcast materialization, then dispatch. -/
def BinHelper.finish (h0 : BinHelper) : Except PolarsError ListResult :=
  let h := { h0 with swapped := true }
  match h.opApplyType, h.broadcast with
  | .listToList, .noBroadcast | .listToList, .right
  | .listToPrimitive, .noBroadcast | .listToPrimitive, .right =>
    BinHelper.finishImplDispatch { h with swapped := false }
  | .primitiveToList, .right =>
    let m := materializeBroadcastedList h.dataRhs h.outputLen h.outputPrimitiveDtype
    BinHelper.finishImplDispatch
      { h with
        listToPrimLhs := some m.1
        opApplyType := .listToPrimitive
        broadcast := .noBroadcast
        dataLhs := m.2
        dataRhs := h.dataLhs }
  | .listToList, .left =>
    BinHelper.finishImplDispatch
      { h with broadcast := .right, dataLhs := h.dataRhs, dataRhs := h.dataLhs }
  | .listToPrimitive, .left =>
    let m := materializeBroadcastedList h.dataLhs h.outputLen h.outputPrimitiveDtype
    BinHelper.finishImplDispatch
      { h with
        listToPrimLhs := some m.1
        broadcast := .noBroadcast
        dataLhs := m.2
        swapped := false }
  | .primitiveToList, .left =>
    BinHelper.finishImplDispatch
      { h with
        opApplyType := .listToPrimitive
        broadcast := .right
        dataLhs := h.dataRhs
        dataRhs := h.dataLhs }
  | .primitiveToList, .noBroadcast =>
    BinHelper.finishImplDispatch
      { h with
        opApplyType := .listToPrimitive
        dataLhs := h.dataRhs
        dataRhs := h.dataLhs }

/-- `NumericListOp::execute` (both sides already single-chunk). -/
def NumericListOp.execute (op : NumericListOp) (lhs rhs : Series) :
    Except PolarsError ListResult :=
  match BinHelper.tryNew op lhs.name lhs.dtype rhs.dtype lhs.len rhs.len
      lhs.sideData rhs.sideData lhs.rechunkValidity rhs.rechunkValidity with
  | .error e => .error e
  | .ok (.inr ca) => .ok ca
  | .ok (.inl h) => h.finish

/-! ## Well-formedness of a (rechunked) column -/
/-- Offset monotonicity: `offsets[i] ≤ offsets[i+1]`. -/
def offsMono (o : Offs) : Prop := ∀ i, i < lenProxy o → offGet o i ≤ offGet o (i + 1)

instance (o : Offs) : Decidable (offsMono o) := Nat.decidableBallLT _ _

def bitmapLenOk (v : Option Bitmap) (n : Nat) : Prop :=
  match v with
  | none => True
  | some bm => bm.length = n

instance (v : Option Bitmap) (n : Nat) : Decidable (bitmapLenOk v n) := by
  unfold bitmapLenOk; exact match v with | none => inferInstance | some _ => inferInstance

/-- The row capacity of the level below the given levels. -/
def childCap (os : List Offs) (leaf : PrimArray) : Nat :=
  match os with
  | [] => leaf.size
  | o :: _ => lenProxy o

/-- Level-by-level invariants: each offsets buffer has `rows + 1`
entries, is monotone, and stays within the capacity of the next level;
validities have one bit per row. -/
def levelsWF : Nat → List Offs → List (Option Bitmap) → PrimArray → Prop
  | n, [], _, leaf => leaf.size = n
  | n, o :: os, vs, leaf =>
    o.length = n + 1 ∧ offsMono o ∧ offLast o ≤ childCap os leaf ∧
    bitmapLenOk (vs.headD none) n ∧ levelsWF (childCap os leaf) os vs.tail leaf

instance levelsWFDec : (n : Nat) → (os : List Offs) → (vs : List (Option Bitmap)) →
    (leaf : PrimArray) → Decidable (levelsWF n os vs leaf)
  | _, [], _, _ => by unfold levelsWF; infer_instance
  | n, o :: os, vs, leaf => by
    unfold levelsWF
    have := levelsWFDec (childCap os leaf) os vs.tail leaf
    infer_instance

def Series.WF (s : Series) : Prop :=
  s.offsets.length = s.dtype.depth ∧
  s.validities.length = s.offsets.length ∧
  bitmapLenOk s.leaf.validity s.leaf.size ∧
  levelsWF s.len s.offsets s.validities s.leaf

instance (s : Series) : Decidable s.WF := by unfold Series.WF; infer_instance

/-! ## Semantic denotation of a nested result

Decoding offsets/validities/leaf into nested values: a null row denotes
`none` (its physical width is unobservable), a valid row denotes the
list of its children.  Two results that denote equally are
element-for-element equal. -/
inductive NVal
  | prim (v : Option Int)
  | lst (rows : Option (List NVal))

def bitGetOpt (v : Option Bitmap) (i : Nat) : Bool :=
  match v with
  | none => true
  | some bm => bm.getD i true

def denoteLevels : List (Offs × Option Bitmap) → PrimArray → Nat → Nat → List NVal
  | [], leaf, lo, hi =>
    (List.range (hi - lo)).map (fun j =>
      .prim (if leaf.isValidAt (lo + j) then some (leaf.getV (lo + j)) else none))
  | (o, v) :: rest, leaf, lo, hi =>
    (List.range (hi - lo)).map (fun j =>
      if bitGetOpt v (lo + j) then
        .lst (some (denoteLevels rest leaf (offGet o (lo + j)) (offGet o (lo + j + 1))))
      else .lst none)

def ListResult.denote (r : ListResult) : List NVal :=
  denoteLevels (r.offsets.zip r.validities) r.leaf 0 r.len

/-- Abstract form of the per-row write loops: rows `i < n` with starts
`s i`, lengths `l i` and per-row writers `g i`. -/
def rowsWriteFold (s l : Nat → Nat) (g : Nat → Nat → Int) (base : List Int)
    (n : Nat) : List Int :=
  (List.range n).foldl (fun acc i => writeRowVals (s i) (l i) (g i) acc) base

/-- Abstract form of the per-row validity-combine loops. -/
def rowsAndFold (s l : Nat → Nat) (rb : Nat → Nat → Bool) (base : List Bool)
    (n : Nat) : List Bool :=
  (List.range n).foldl (fun acc i => andRowBits (s i) (l i) (rb i) acc) base

deriving instance DecidableEq for Except

def exListLen2 : Series :=
  { name := "a", dtype := .list (.prim .i64), offsets := [[0, 2, 4]],
    validities := [none], leaf := ⟨[1, 2, 3, 4], none⟩ }

def exListLen3 : Series :=
  { name := "b", dtype := .list (.prim .i64), offsets := [[0, 1, 2, 3]],
    validities := [none], leaf := ⟨[1, 2, 3], none⟩ }

def exEmptyList : Series :=
  { name := "a", dtype := .list (.prim .i64), offsets := [[0]],
    validities := [none], leaf := ⟨[], none⟩ }

def exEmptyListB : Series :=
  { name := "b", dtype := .list (.prim .i64), offsets := [[0]],
    validities := [none], leaf := ⟨[], none⟩ }

def exC6a : Series :=
  { name := "a", dtype := .list (.prim .i64), offsets := [[0, 2, 3]],
    validities := [none], leaf := ⟨[1, 2, 3], none⟩ }

def exC6b : Series :=
  { name := "b", dtype := .prim .i64, offsets := [], validities := [],
    leaf := ⟨[5], some [false]⟩ }

def exC1a : Series :=
  { name := "a", dtype := .list (.prim .i64), offsets := [[0, 2, 3]],
    validities := [none], leaf := ⟨[10, 20, 30], none⟩ }

def exC1b : Series :=
  { name := "b", dtype := .list (.prim .i64), offsets := [[0, 2, 3]],
    validities := [none], leaf := ⟨[2, 0, 5], none⟩ }

/-- The side-data whose offsets/validities the result is assembled from:
the (possibly swapped or materialized) lhs of the dispatched physical
impl, mirroring the rewrites of `finish`. -/
def normalizedListSide (h : BinHelper) : SideData :=
  match h.opApplyType, h.broadcast with
  | .listToList, .left => h.dataRhs
  | .primitiveToList, .left => h.dataRhs
  | .primitiveToList, .noBroadcast => h.dataRhs
  | .primitiveToList, .right =>
    (materializeBroadcastedList h.dataRhs h.outputLen h.outputPrimitiveDtype).2
  | .listToPrimitive, .left =>
    (materializeBroadcastedList h.dataLhs h.outputLen h.outputPrimitiveDtype).2
  | _, _ => h.dataLhs

def exB10 : Series :=
  { name := "b", dtype := .list (.prim .i64), offsets := [[0, 2, 4]],
    validities := [some [true, false]], leaf := ⟨[5, 6, 7, 8], none⟩ }

def exH10 : BinHelper :=
  { op := .add, outputName := "a", opApplyType := .listToList, broadcast := .noBroadcast,
    outputDtype := .list (.prim .i64), outputPrimitiveDtype := .i64, outputLen := 2,
    outerValidity := [true, false],
    dataLhs := exListLen2.sideData, dataRhs := exB10.sideData,
    listToPrimLhs := none, swapped := false }

def exR10 : ListResult :=
  { name := "a", leafDtype := .i64, offsets := [[0, 2, 4]],
    validities := [some [true, false]],
    leaf := ⟨[6, 8, 10, 12], none⟩ }

/-! ## Broadcast symmetry -/
/-- `execute(op, a, b)` and `execute(op, b, a)` agree element-for-element
(modulo output name), or both fail. -/
def execDenoteEq (op : NumericListOp) (a b : Series) : Prop :=
  match op.execute a b, op.execute b a with
  | .ok r1, .ok r2 => r1.denote = r2.denote
  | .error _, .error _ => True
  | _, _ => False

def exR8 : ListResult :=
  { name := "a", leafDtype := .i64, offsets := [[0, 2, 4]],
    validities := [some [true, false]],
    leaf := ⟨[6, 8, 10, 12], none⟩ }

/-! ## Characterization of the `ListToList` physical paths -/
/-- The result assembled by the `(ListToList, NoBroadcast)` path when
the width check passes. -/
def ltlNoBResult (op : NumericListOp) (a b : Series) : ListResult :=
  let t := op.tryGetLeafSupertype a.dtype.leafDtype b.dtype.leafDtype
  let prepared := op.prepareNumericOpSideValidities t a.leaf b.leaf false
  let offL := a.offsets.headD []
  let offR := b.offsets.headD []
  let outer := computeOuterValidity .listToList .noBroadcast
    a.rechunkValidity b.rechunkValidity a.len
  { name := a.name
    leafDtype := t
    offsets := a.offsets
    validities := some outer :: a.validities.drop 1
    leaf := ⟨ltlNoBroadcastOut op t false offL offR prepared.1 prepared.2,
             combineValiditiesListToListNoBroadcast offL offR
               prepared.1.validity prepared.2.validity prepared.1.size⟩ }

def exC2a : Series :=
  { name := "a", dtype := .list (.prim .i64), offsets := [[0, 2, 3]],
    validities := [none], leaf := ⟨[1, 2, 3], none⟩ }

def exC2b : Series :=
  { name := "b", dtype := .list (.prim .i64), offsets := [[0, 2, 4]],
    validities := [none], leaf := ⟨[1, 2, 3, 4], none⟩ }

/-- The result assembled by the `(ListToList, Broadcast::Right)` path
when the width check passes.  `L` is the full-length list side (the lhs
after normalization), `R` the unit-length list side; `nm` the output
name, `sw` the swapped flag, `outer` the pre-combined outer validity. -/
def ltlRightAssembled (op : NumericListOp) (nm : String) (t : DType) (sw : Bool)
    (outer : Bitmap) (L R : Series) : ListResult :=
  let prepared := op.prepareNumericOpSideValidities t L.leaf R.leaf sw
  let offL := L.offsets.headD []
  let offR := R.offsets.headD []
  { name := nm
    leafDtype := t
    offsets := L.offsets
    validities := some outer :: L.validities.drop 1
    leaf := ⟨ltlBroadcastRightOut op t sw offL (offFirst offR) (offRange offR)
               prepared.1 prepared.2,
             combineValiditiesListToListBroadcastRight offL
               prepared.1.validity prepared.2.validity prepared.1.size
               (offRange offR) (offFirst offR)⟩ }

/-- The result assembled by the `(ListToPrimitive, NoBroadcast)` path
without a materialized scratch lhs.  `L` is the list side, `R` the
primitive side. -/
def ltpNoBAssembled (op : NumericListOp) (nm : String) (t : DType) (sw : Bool)
    (outer : Bitmap) (L R : Series) : ListResult :=
  let prepared := op.prepareNumericOpSideValidities t L.leaf R.leaf sw
  { name := nm
    leafDtype := t
    offsets := L.offsets
    validities := some outer :: L.validities.drop 1
    leaf := ⟨ltpNoBroadcastOut op t sw L.offsets prepared.1 prepared.2,
             combineValiditiesListToPrimNoBroadcast L.offsets
               prepared.1.validity prepared.2.validity prepared.1.size⟩ }

/-- The result assembled by the `(ListToPrimitive, Broadcast::Right)`
path (scalar rhs).  `L` is the list side, `R` the unit primitive side. -/
def ltpRightAssembled (op : NumericListOp) (nm : String) (t : DType) (sw : Bool)
    (outer : Bitmap) (L R : Series) : ListResult :=
  if R.leaf.isValidAt 0 = false then
    { name := nm
      leafDtype := t
      offsets := L.offsets
      validities := some outer :: L.validities.drop 1
      leaf := { values := L.leaf.values
                validity := some (List.replicate L.leaf.size false) } }
  else
    { name := nm
      leafDtype := t
      offsets := L.offsets
      validities := some outer :: L.validities.drop 1
      leaf := op.applyArrayToScalar t L.leaf (R.leaf.getV 0) sw }

/-- The result assembled by the materialized-broadcast
`(ListToPrimitive, NoBroadcast)` path (in-place scratch buffer).  `L` is
the unit-length list side that gets materialized, `P` the full-length
primitive side. -/
def ltpScratchAssembled (op : NumericListOp) (nm : String) (t : DType) (sw : Bool)
    (outer : Bitmap) (L P : Series) (olen : Nat) : ListResult :=
  let m := materializeBroadcastedList L.sideData olen t
  let prepared := op.prepareNumericOpSideValidities t m.1.1 P.leaf sw
  { name := nm
    leafDtype := t
    offsets := m.2.offsets
    validities := some outer :: m.2.validities.drop 1
    leaf := ⟨ltpNoBroadcastInPlace op t sw m.2.offsets prepared.1.values prepared.2,
             combineValiditiesListToPrimNoBroadcast m.2.offsets
               prepared.1.validity prepared.2.validity prepared.1.size⟩ }

def exC3a : Series :=
  { name := "a", dtype := .list (.prim .i64), offsets := [[0, 2, 3]],
    validities := [none], leaf := ⟨[1, 2, 3], none⟩ }

def exC3b : Series :=
  { name := "b", dtype := .list (.prim .i64), offsets := [[0, 2]],
    validities := [none], leaf := ⟨[5, 6], none⟩ }

def exC7a : Series :=
  { name := "a", dtype := .list (.list (.prim .i64)), offsets := [[0, 1, 2], [0, 2, 3]],
    validities := [none, none], leaf := ⟨[1, 2, 3], none⟩ }

def exC7b : Series :=
  { name := "b", dtype := .prim .i64, offsets := [],
    validities := [], leaf := ⟨[10, 20], none⟩ }

/-! ## Pointwise characterization of the write loops -/
theorem getD_set_eq {α : Type} (l : List α) (i : Nat) (x d : α) (h : i < l.length) :
    (l.set i x).getD i d = x := by
  induction l generalizing i with
  | nil => simp at h
  | cons y ys ih =>
    cases i with
    | zero => rfl
    | succ k =>
      simp only [List.set_cons_succ, List.getD_cons_succ]
      exact ih k (by simpa using h)

theorem getD_set_ne {α : Type} (l : List α) (i j : Nat) (x d : α) (h : i ≠ j) :
    (l.set i x).getD j d = l.getD j d := by
  induction l generalizing i j with
  | nil => simp [List.getD]
  | cons y ys ih =>
    cases i with
    | zero =>
      cases j with
      | zero => exact absurd rfl h
      | succ k => rfl
    | succ k =>
      cases j with
      | zero => rfl
      | succ m =>
        simp only [List.set_cons_succ, List.getD_cons_succ]
        exact ih k m (fun hc => h (by rw [hc]))

theorem writeRowVals_length (start len : Nat) (g : Nat → Int) (base : List Int) :
    (writeRowVals start len g base).length = base.length := by
  unfold writeRowVals
  induction len with
  | zero => rfl
  | succ m ih =>
    rw [List.range_succ, List.foldl_append, List.foldl_cons, List.foldl_nil,
      List.length_set, ih]

theorem writeRowVals_getD_out (start len : Nat) (g : Nat → Int) (base : List Int)
    (p : Nat) (h : p < start ∨ start + len ≤ p) :
    (writeRowVals start len g base).getD p 0 = base.getD p 0 := by
  unfold writeRowVals
  induction len with
  | zero => rfl
  | succ m ih =>
    rw [List.range_succ, List.foldl_append, List.foldl_cons, List.foldl_nil]
    rw [getD_set_ne _ _ _ _ _ (by omega)]
    exact ih (by omega)

theorem writeRowVals_getD_in (start len : Nat) (g : Nat → Int) (base : List Int)
    (j : Nat) (hj : j < len) (hb : start + j < base.length) :
    (writeRowVals start len g base).getD (start + j) 0 = g j := by
  induction len with
  | zero => omega
  | succ m ih =>
    unfold writeRowVals at ih ⊢
    rw [List.range_succ, List.foldl_append, List.foldl_cons, List.foldl_nil]
    by_cases hjm : j = m
    · subst hjm
      rw [getD_set_eq]
      show start + j < (writeRowVals start j g base).length
      rw [writeRowVals_length]
      exact hb
    · rw [getD_set_ne _ _ _ _ _ (by omega)]
      exact ih (by omega)

theorem mutRowVals_length (start len : Nat) (f : Int → Int) (base : List Int) :
    (mutRowVals start len f base).length = base.length := by
  unfold mutRowVals
  induction len with
  | zero => rfl
  | succ m ih =>
    rw [List.range_succ, List.foldl_append, List.foldl_cons, List.foldl_nil,
      List.length_set, ih]

theorem mutRowVals_getD_out (start len : Nat) (f : Int → Int) (base : List Int)
    (p : Nat) (h : p < start ∨ start + len ≤ p) :
    (mutRowVals start len f base).getD p 0 = base.getD p 0 := by
  unfold mutRowVals
  induction len with
  | zero => rfl
  | succ m ih =>
    rw [List.range_succ, List.foldl_append, List.foldl_cons, List.foldl_nil]
    rw [getD_set_ne _ _ _ _ _ (by omega)]
    exact ih (by omega)

theorem mutRowVals_succ (start m : Nat) (f : Int → Int) (base : List Int) :
    mutRowVals start (m + 1) f base =
      (mutRowVals start m f base).set (start + m)
        (f ((mutRowVals start m f base).getD (start + m) 0)) := by
  unfold mutRowVals
  rw [List.range_succ, List.foldl_append, List.foldl_cons, List.foldl_nil]

theorem mutRowVals_getD_in (start len : Nat) (f : Int → Int) (base : List Int)
    (j : Nat) (hj : j < len) (hb : start + j < base.length) :
    (mutRowVals start len f base).getD (start + j) 0 = f (base.getD (start + j) 0) := by
  induction len with
  | zero => omega
  | succ m ih =>
    rw [mutRowVals_succ]
    by_cases hjm : j = m
    · subst hjm
      rw [mutRowVals_getD_out start j f base (start + j) (by omega)]
      rw [getD_set_eq]
      rw [mutRowVals_length]
      exact hb
    · rw [getD_set_ne _ _ _ _ _ (by omega)]
      exact ih (by omega)

theorem andRowBits_length (start len : Nat) (rbit : Nat → Bool) (base : List Bool) :
    (andRowBits start len rbit base).length = base.length := by
  unfold andRowBits
  induction len with
  | zero => rfl
  | succ m ih =>
    rw [List.range_succ, List.foldl_append, List.foldl_cons, List.foldl_nil,
      List.length_set, ih]

theorem andRowBits_getD_out (start len : Nat) (rbit : Nat → Bool) (base : List Bool)
    (p : Nat) (h : p < start ∨ start + len ≤ p) :
    (andRowBits start len rbit base).getD p true = base.getD p true := by
  unfold andRowBits
  induction len with
  | zero => rfl
  | succ m ih =>
    rw [List.range_succ, List.foldl_append, List.foldl_cons, List.foldl_nil]
    rw [getD_set_ne _ _ _ _ _ (by omega)]
    exact ih (by omega)

theorem andRowBits_succ (start m : Nat) (rbit : Nat → Bool) (base : List Bool) :
    andRowBits start (m + 1) rbit base =
      (andRowBits start m rbit base).set (start + m)
        ((andRowBits start m rbit base).getD (start + m) true && rbit m) := by
  unfold andRowBits
  rw [List.range_succ, List.foldl_append, List.foldl_cons, List.foldl_nil]

theorem andRowBits_getD_in (start len : Nat) (rbit : Nat → Bool) (base : List Bool)
    (j : Nat) (hj : j < len) (hb : start + j < base.length) :
    (andRowBits start len rbit base).getD (start + j) true =
      (base.getD (start + j) true && rbit j) := by
  induction len with
  | zero => omega
  | succ m ih =>
    rw [andRowBits_succ]
    by_cases hjm : j = m
    · subst hjm
      rw [andRowBits_getD_out start j rbit base (start + j) (by omega)]
      rw [getD_set_eq]
      rw [andRowBits_length]
      exact hb
    · rw [getD_set_ne _ _ _ _ _ (by omega)]
      exact ih (by omega)

theorem rowsWriteFold_succ (s l : Nat → Nat) (g : Nat → Nat → Int) (base : List Int)
    (m : Nat) :
    rowsWriteFold s l g base (m + 1) =
      writeRowVals (s m) (l m) (g m) (rowsWriteFold s l g base m) := by
  unfold rowsWriteFold
  rw [List.range_succ, List.foldl_append, List.foldl_cons, List.foldl_nil]

theorem rowsWriteFold_length (s l : Nat → Nat) (g : Nat → Nat → Int) (base : List Int)
    (n : Nat) : (rowsWriteFold s l g base n).length = base.length := by
  induction n with
  | zero => rfl
  | succ m ih => rw [rowsWriteFold_succ, writeRowVals_length, ih]

theorem rowsWriteFold_getD (s l : Nat → Nat) (g : Nat → Nat → Int) (base : List Int)
    (n : Nat) (hord : ∀ i j, i < j → j < n → s i + l i ≤ s j)
    (i j : Nat) (hi : i < n) (hj : j < l i) (hb : s i + j < base.length) :
    (rowsWriteFold s l g base n).getD (s i + j) 0 = g i j := by
  induction n with
  | zero => omega
  | succ m ih =>
    rw [rowsWriteFold_succ]
    by_cases him : i = m
    · subst him
      refine writeRowVals_getD_in _ _ _ _ j hj ?_
      rw [rowsWriteFold_length]
      exact hb
    · have hord' : s i + l i ≤ s m := hord i m (by omega) (by omega)
      rw [writeRowVals_getD_out _ _ _ _ _ (Or.inl (by omega))]
      exact ih (fun p q hpq hq => hord p q hpq (by omega)) (by omega)

theorem rowsAndFold_succ (s l : Nat → Nat) (rb : Nat → Nat → Bool) (base : List Bool)
    (m : Nat) :
    rowsAndFold s l rb base (m + 1) =
      andRowBits (s m) (l m) (rb m) (rowsAndFold s l rb base m) := by
  unfold rowsAndFold
  rw [List.range_succ, List.foldl_append, List.foldl_cons, List.foldl_nil]

theorem rowsAndFold_length (s l : Nat → Nat) (rb : Nat → Nat → Bool) (base : List Bool)
    (n : Nat) : (rowsAndFold s l rb base n).length = base.length := by
  induction n with
  | zero => rfl
  | succ m ih => rw [rowsAndFold_succ, andRowBits_length, ih]

theorem rowsAndFold_getD_out (s l : Nat → Nat) (rb : Nat → Nat → Bool) (base : List Bool)
    (n : Nat) (p : Nat) (h : ∀ i, i < n → p < s i ∨ s i + l i ≤ p) :
    (rowsAndFold s l rb base n).getD p true = base.getD p true := by
  induction n with
  | zero => rfl
  | succ m ih =>
    rw [rowsAndFold_succ]
    rw [andRowBits_getD_out _ _ _ _ _ (h m (by omega))]
    exact ih (fun i hi => h i (by omega))

theorem rowsAndFold_getD (s l : Nat → Nat) (rb : Nat → Nat → Bool) (base : List Bool)
    (n : Nat) (hord : ∀ i j, i < j → j < n → s i + l i ≤ s j)
    (i j : Nat) (hi : i < n) (hj : j < l i) (hb : s i + j < base.length) :
    (rowsAndFold s l rb base n).getD (s i + j) true =
      (base.getD (s i + j) true && rb i j) := by
  induction n with
  | zero => omega
  | succ m ih =>
    rw [rowsAndFold_succ]
    by_cases him : i = m
    · subst him
      rw [andRowBits_getD_in _ _ _ _ j hj (by rw [rowsAndFold_length]; exact hb)]
      rw [rowsAndFold_getD_out _ _ _ _ _ _
        (fun p hp => Or.inr (by have := hord p i hp (by omega); omega))]
    · have hord' : s i + l i ≤ s m := hord i m (by omega) (by omega)
      rw [andRowBits_getD_out _ _ _ _ _ (Or.inl (by omega))]
      exact ih (fun p q hpq hq => hord p q hpq (by omega)) (by omega)

theorem offsMono_le (o : Offs) (hm : offsMono o) :
    ∀ p q, p ≤ q → q ≤ lenProxy o → offGet o p ≤ offGet o q := by
  intro p q hpq hq
  induction q with
  | zero =>
    have : p = 0 := by omega
    subst this
    exact Nat.le_refl _
  | succ m ih =>
    by_cases hpm : p = m + 1
    · subst hpm; exact Nat.le_refl _
    · have h1 : offGet o p ≤ offGet o m := ih (by omega) (by omega)
      have h2 : offGet o m ≤ offGet o (m + 1) := hm m (by omega)
      omega

/-! ## Basic lemmas -/
theorem getD_replicate {α : Type} (n i : Nat) (a d : α) (h : i < n) :
    (List.replicate n a).getD i d = a := by
  induction n generalizing i with
  | zero => omega
  | succ m ih =>
    cases i with
    | zero => rfl
    | succ k =>
      rw [List.replicate_succ, List.getD_cons_succ]
      exact ih k (by omega)

theorem nestedListDtype_depth_leaf (d : DataType) :
    nestedListDtype d.depth d.leafDtype = d := by
  induction d with
  | prim t => rfl
  | list inner ih => simpa [nestedListDtype, DataType.depth, DataType.leafDtype] using ih

theorem emptyLevelsOffsets_length (d : DataType) :
    (emptyLevelsOffsets d).length = d.depth := by
  induction d with
  | prim t => rfl
  | list inner ih => simpa [emptyLevelsOffsets, DataType.depth] using ih

theorem castLeaf_depth (d : DataType) (t : DType) : (d.castLeaf t).depth = d.depth := by
  induction d with
  | prim s => rfl
  | list inner ih => simpa [DataType.castLeaf, DataType.depth] using ih

theorem castLeaf_leafDtype (d : DataType) (t : DType) : (d.castLeaf t).leafDtype = t := by
  induction d with
  | prim s => rfl
  | list inner ih => simpa [DataType.castLeaf, DataType.leafDtype] using ih

theorem fullNull_len (name : String) (n : Nat) (inner : DataType) :
    (fullNullWithDtype name n inner).len = n := by
  simp [fullNullWithDtype, ListResult.len, lenProxy]

theorem fullNull_dtype (name : String) (n : Nat) (inner : DataType) :
    (fullNullWithDtype name n inner).dtype = .list inner := by
  simp only [fullNullWithDtype, ListResult.dtype, List.length_cons, emptyLevelsOffsets_length]
  show nestedListDtype (inner.depth + 1) inner.leafDtype = DataType.list inner
  simp [nestedListDtype, nestedListDtype_depth_leaf]

/-- `try_new` after shape and length classification succeed. -/
theorem tryNew_eq_build (op : NumericListOp) (name : String) (dl dr : DataType)
    (ll lr : Nat) (sa sb : SideData) (vl vr : Option Bitmap)
    (apt : BinaryOpApplyType) (d0 : DataType) (bc : Broadcast) (olen : Nat)
    (hA : applyTypeOf dl dr = .ok (apt, d0))
    (hC : classifyLengths ll lr = .ok (bc, olen)) :
    BinHelper.tryNew op name dl dr ll lr sa sb vl vr =
      (if shortCircuitNull apt olen ll lr vl vr then
        .ok (.inr (fullNullWithDtype name olen
          ((d0.castLeaf (op.tryGetLeafSupertype dl.leafDtype dr.leafDtype)).innerOf)))
      else
        .ok (.inl
          { op := op
            outputName := name
            opApplyType := apt
            broadcast := bc
            outputDtype := d0.castLeaf (op.tryGetLeafSupertype dl.leafDtype dr.leafDtype)
            outputPrimitiveDtype := op.tryGetLeafSupertype dl.leafDtype dr.leafDtype
            outputLen := olen
            outerValidity := computeOuterValidity apt bc vl vr olen
            dataLhs := sa
            dataRhs := sb
            listToPrimLhs := none
            swapped := false })) := by
  unfold BinHelper.tryNew
  rw [hA, hC]

theorem tryNew_classify_error (op : NumericListOp) (name : String) (dl dr : DataType)
    (ll lr : Nat) (sa sb : SideData) (vl vr : Option Bitmap)
    (p : BinaryOpApplyType × DataType) (e : PolarsError)
    (hA : applyTypeOf dl dr = .ok p)
    (hC : classifyLengths ll lr = .error e) :
    BinHelper.tryNew op name dl dr ll lr sa sb vl vr = .error e := by
  obtain ⟨apt, d0⟩ := p
  unfold BinHelper.tryNew
  rw [hA, hC]

/-! ## Claims -/
/-- C4: for every accepted operand pair, the output leaf primitive dtype
is the supertype of the two leaf dtypes, except that `Div` with an
integral supertype promotes to 64-bit float; all other ops use the
supertype unchanged. -/
theorem claim_C4 (op : NumericListOp) (l r : DType) :
    op.tryGetLeafSupertype l r =
      (if op = .div ∧ (DType.st2 l r).isIntegerDt = true then .f64 else DType.st2 l r) := by
  unfold NumericListOp.tryGetLeafSupertype DType.isIntegerDt
  cases h : (DType.st2 l r).isFloat <;> cases op <;> simp [h]

theorem applyTypeOf_ok_list (dl dr : DataType) (apt : BinaryOpApplyType) (d0 : DataType)
    (hA : applyTypeOf dl dr = .ok (apt, d0)) : ∃ inner, d0 = .list inner := by
  cases dl with
  | prim t =>
    cases dr with
    | prim s => simp [applyTypeOf] at hA
    | list inner =>
      simp [applyTypeOf] at hA
      exact ⟨inner, hA.2.symm⟩
  | list inner =>
    cases dr with
    | prim s =>
      simp [applyTypeOf] at hA
      exact ⟨inner, hA.2.symm⟩
    | list innerR =>
      simp only [applyTypeOf] at hA
      split at hA
      · simp at hA
        exact ⟨inner, hA.2.symm⟩
      · simp at hA

/-- C9: top-level length classification — equal lengths mean no
broadcast with the common output length; exactly one unit-length side
is broadcast; anything else fails with `ShapeMismatch` before any
kernel runs. -/
theorem claim_C9 (op : NumericListOp) (a b : Series) (p : BinaryOpApplyType × DataType)
    (hshape : applyTypeOf a.dtype b.dtype = .ok p) :
    (a.len = b.len → classifyLengths a.len b.len = .ok (.noBroadcast, a.len)) ∧
    (a.len = 1 → b.len ≠ 1 → classifyLengths a.len b.len = .ok (.left, b.len)) ∧
    (b.len = 1 → a.len ≠ 1 → classifyLengths a.len b.len = .ok (.right, a.len)) ∧
    (a.len ≠ b.len → a.len ≠ 1 → b.len ≠ 1 →
      op.execute a b = .error (.shapeMismatchLengths a.len b.len)) := by
  refine ⟨?_, ?_, ?_, ?_⟩
  · intro h
    simp [classifyLengths, h]
  · intro h1 hb
    have h1' : (1 : Nat) ≠ b.len := fun hh => hb hh.symm
    simp [classifyLengths, h1, h1']
  · intro hb1 ha1
    simp [classifyLengths, hb1, ha1]
  · intro hne h1 h2
    have hC : classifyLengths a.len b.len = .error (.shapeMismatchLengths a.len b.len) := by
      simp [classifyLengths, hne, h1, h2]
    unfold NumericListOp.execute
    rw [tryNew_classify_error op a.name a.dtype b.dtype a.len b.len a.sideData b.sideData
      a.rechunkValidity b.rechunkValidity p _ hshape hC]

theorem claim_C9_witness :
    NumericListOp.add.execute exListLen2 exListLen3 =
      .error (.shapeMismatchLengths 2 3) :=
  (claim_C9 .add exListLen2 exListLen3 (.listToList, .list (.prim .i64))
    (by decide)).2.2.2 (by decide) (by decide) (by decide)

/-- C5: empty output length, or a unit-length list-participating side
that is null at row 0, short-circuits `execute` to an all-null list
column of the computed output dtype and output length — never an
error. -/
theorem claim_C5 (op : NumericListOp) (a b : Series) (apt : BinaryOpApplyType)
    (d0 : DataType) (bc : Broadcast) (olen : Nat)
    (hA : applyTypeOf a.dtype b.dtype = .ok (apt, d0))
    (hC : classifyLengths a.len b.len = .ok (bc, olen))
    (hsc : shortCircuitNull apt olen a.len b.len a.rechunkValidity b.rechunkValidity) :
    op.execute a b =
      .ok (fullNullWithDtype a.name olen
        ((d0.castLeaf (op.tryGetLeafSupertype a.dtype.leafDtype b.dtype.leafDtype)).innerOf)) ∧
    (fullNullWithDtype a.name olen
      ((d0.castLeaf (op.tryGetLeafSupertype a.dtype.leafDtype b.dtype.leafDtype)).innerOf)).len
      = olen ∧
    (fullNullWithDtype a.name olen
      ((d0.castLeaf (op.tryGetLeafSupertype a.dtype.leafDtype b.dtype.leafDtype)).innerOf)).dtype
      = d0.castLeaf (op.tryGetLeafSupertype a.dtype.leafDtype b.dtype.leafDtype) ∧
    (∀ i, i < olen →
      bitGetOpt ((fullNullWithDtype a.name olen
        ((d0.castLeaf (op.tryGetLeafSupertype a.dtype.leafDtype b.dtype.leafDtype)).innerOf)).validities.headD
          none) i = false) := by
  obtain ⟨inner, hinner⟩ := applyTypeOf_ok_list _ _ _ _ hA
  subst hinner
  refine ⟨?_, fullNull_len _ _ _, ?_, ?_⟩
  · unfold NumericListOp.execute
    rw [tryNew_eq_build op a.name a.dtype b.dtype a.len b.len a.sideData b.sideData
      a.rechunkValidity b.rechunkValidity apt _ bc olen hA hC]
    rw [if_pos hsc]
  · rw [fullNull_dtype]
    simp [DataType.castLeaf, DataType.innerOf]
  · intro i hi
    simp only [fullNullWithDtype, List.headD_cons, bitGetOpt]
    exact getD_replicate olen i false true hi

theorem claim_C5_witness :
    NumericListOp.add.execute exEmptyList exEmptyListB =
      .ok (fullNullWithDtype "a" 0 (.prim .i64)) :=
  (claim_C5 .add exEmptyList exEmptyListB .listToList (.list (.prim .i64)) .noBroadcast 0
    (by decide) (by decide) (Or.inl rfl)).1

/-- C6: `ListToPrimitive` with broadcast `Right` and a null single rhs
element: the result keeps the lhs offsets and per-level validities (the
outermost one being the pre-combined outer validity) and the output
length, with an all-false leaf validity. -/
theorem claim_C6 (op : NumericListOp) (a b : Series) (ta : DataType) (tb : DType)
    (hda : a.dtype = .list ta) (hdb : b.dtype = .prim tb)
    (hb1 : b.len = 1) (ha1 : a.len ≠ 1) (ha0 : a.len ≠ 0)
    (hnull : b.leaf.isValidAt 0 = false)
    (hwa : a.WF) :
    op.execute a b =
      .ok { name := a.name
            leafDtype := op.tryGetLeafSupertype a.dtype.leafDtype b.dtype.leafDtype
            offsets := a.offsets
            validities := some (computeOuterValidity .listToPrimitive .right
              a.rechunkValidity b.rechunkValidity a.len) :: a.validities.drop 1
            leaf := { values := a.leaf.values
                      validity := some (List.replicate a.leaf.size false) } } ∧
    lenProxy (a.offsets.headD []) = a.len ∧
    (∀ v, a.rechunkValidity = some v →
      computeOuterValidity .listToPrimitive .right a.rechunkValidity b.rechunkValidity a.len
        = v) := by
  have hA : applyTypeOf a.dtype b.dtype = .ok (.listToPrimitive, .list ta) := by
    rw [hda, hdb]; rfl
  have hC : classifyLengths a.len b.len = .ok (.right, a.len) := by
    simp [classifyLengths, hb1, ha1]
  have hns : ¬ shortCircuitNull .listToPrimitive a.len a.len b.len
      a.rechunkValidity b.rechunkValidity := by
    rintro (h | ⟨h1, -, -⟩ | ⟨-, hd, -⟩)
    · exact ha0 h
    · exact ha1 h1
    · rcases hd with h | h <;> exact BinaryOpApplyType.noConfusion h
  refine ⟨?_, ?_, ?_⟩
  · unfold NumericListOp.execute
    rw [tryNew_eq_build op a.name a.dtype b.dtype a.len b.len a.sideData b.sideData
      a.rechunkValidity b.rechunkValidity .listToPrimitive (.list ta) .right a.len hA hC,
      if_neg hns]
    show BinHelper.finish _ = _
    unfold BinHelper.finish BinHelper.finishImplDispatch BinHelper.finishImpl
    simp [Series.sideData, hnull, BinHelper.finishOffsetsAndValidities, BinHelper.prepForImpl]
  · obtain ⟨hdep, -, -, -⟩ := hwa
    rw [hda] at hdep
    cases ho : a.offsets with
    | nil => rw [ho] at hdep; simp [DataType.depth] at hdep
    | cons o os => simp [Series.len, ho]
  · intro v hv
    simp [computeOuterValidity, hv]

theorem claim_C6_witness :
    NumericListOp.add.execute exC6a exC6b =
      .ok { name := "a", leafDtype := .i64, offsets := [[0, 2, 3]],
            validities := [some [true, true]],
            leaf := { values := [1, 2, 3], validity := some [false, false, false] } } :=
  (claim_C6 .add exC6a exC6b (.prim .i64) .i64 rfl rfl rfl (by decide) (by decide) rfl
    (by decide)).1

/-- C1 (evaluation of the code at the failing input): the engine
evaluates `[[10,20],[30]] / [[2,0],[5]]` (Int64 leaves) to a result
whose leaf validity is `none` — i.e. *every* leaf, including the one
whose denominator is 0, stays valid — because `try_get_leaf_supertype`
promotes `Div` to Float64 before `prepare_numeric_op_side_validities`
runs, and that function skips float dtypes, so the zero-denominator
remap to null never happens for `Div`.  (The value `0` at index 1 is
the model's placeholder for the IEEE `inf` the real kernel produces.)
Offsets, the all-true top-level validity and the 64-bit float output
leaf dtype are as the claim states; the null at the zero denominator
is not. -/
theorem claim_C1_code_eval :
    NumericListOp.div.execute exC1a exC1b =
      .ok { name := "a", leafDtype := .f64, offsets := [[0, 2, 3]],
            validities := [some [true, true]],
            leaf := { values := [5, 0, 6], validity := none } } := by
  decide

/-! ## Structural lemmas about `finish` -/
theorem classifyLengths_spec (ll lr : Nat) (bc : Broadcast) (olen : Nat)
    (hC : classifyLengths ll lr = .ok (bc, olen)) :
    (bc = .noBroadcast ∧ ll = lr ∧ olen = ll) ∨
    (bc = .left ∧ ll = 1 ∧ olen = lr) ∨
    (bc = .right ∧ lr = 1 ∧ olen = ll) := by
  unfold classifyLengths at hC
  by_cases h1 : ll = lr
  · rw [if_pos h1] at hC
    simp at hC
    exact Or.inl ⟨hC.1.symm, h1, hC.2.symm⟩
  · rw [if_neg h1] at hC
    by_cases h2 : ll = 1
    · rw [if_pos h2] at hC
      simp at hC
      exact Or.inr (Or.inl ⟨hC.1.symm, h2, hC.2.symm⟩)
    · rw [if_neg h2] at hC
      by_cases h3 : lr = 1
      · rw [if_pos h3] at hC
        simp at hC
        exact Or.inr (Or.inr ⟨hC.1.symm, h3, hC.2.symm⟩)
      · rw [if_neg h3] at hC
        simp at hC

theorem optGetD_length (v : Option Bitmap) (n : Nat) (h : bitmapLenOk v n) :
    (v.getD (List.replicate n true)).length = n := by
  cases v with
  | none => simp
  | some bm => simpa using h

theorem combine_getD_length (vl vr : Option Bitmap) (n : Nat)
    (hl : bitmapLenOk vl n) (hr : bitmapLenOk vr n) :
    ((combineValiditiesAnd vl vr).getD (List.replicate n true)).length = n := by
  cases vl <;> cases vr <;> simp_all [combineValiditiesAnd, bitmapLenOk]

theorem computeOuterValidity_length (apt : BinaryOpApplyType) (bc : Broadcast)
    (vl vr : Option Bitmap) (ll lr olen : Nat)
    (hvl : bitmapLenOk vl ll) (hvr : bitmapLenOk vr lr)
    (hC : classifyLengths ll lr = .ok (bc, olen)) :
    (computeOuterValidity apt bc vl vr olen).length = olen := by
  rcases classifyLengths_spec ll lr bc olen hC with ⟨hb, h1, h2⟩ | ⟨hb, h1, h2⟩ | ⟨hb, h1, h2⟩ <;>
    subst hb <;> subst h2 <;> cases apt
  · exact combine_getD_length vl vr _ hvl (by rw [h1]; exact hvr)
  · exact optGetD_length vl _ hvl
  · exact optGetD_length vr _ (by rw [h1]; exact hvr)
  · exact optGetD_length vr _ hvr
  · simp [computeOuterValidity]
  · exact optGetD_length vr _ hvr
  · exact optGetD_length vl _ hvl
  · exact optGetD_length vl _ hvl
  · simp [computeOuterValidity]

theorem finishImpl_ok_shape (h : BinHelper) (pl pr : PrimArray) (r : ListResult)
    (hr : h.finishImpl pl pr = .ok r) :
    r.name = h.outputName ∧ r.leafDtype = h.outputPrimitiveDtype ∧
    r.offsets = h.dataLhs.offsets ∧
    r.validities = some h.outerValidity :: h.dataLhs.validities.drop 1 := by
  simp only [BinHelper.finishImpl] at hr
  split at hr
  · -- ListToList, NoBroadcast
    split at hr
    · simp at hr
    · simp only [Except.ok.injEq] at hr
      subst hr
      exact ⟨rfl, rfl, rfl, rfl⟩
  · -- ListToList, Right
    split at hr
    · simp at hr
    · simp only [Except.ok.injEq] at hr
      subst hr
      exact ⟨rfl, rfl, rfl, rfl⟩
  · -- ListToPrimitive, NoBroadcast
    split at hr <;>
      (simp only [Except.ok.injEq] at hr; subst hr; exact ⟨rfl, rfl, rfl, rfl⟩)
  · -- ListToPrimitive, Right
    split at hr <;>
      (simp only [Except.ok.injEq] at hr; subst hr; exact ⟨rfl, rfl, rfl, rfl⟩)
  · -- unreachable combinations
    simp at hr

theorem finish_ok_sides (h : BinHelper) (r : ListResult) (hr : h.finish = .ok r) :
    r.name = h.outputName ∧ r.leafDtype = h.outputPrimitiveDtype ∧
    r.offsets = (normalizedListSide h).offsets ∧
    r.validities = some h.outerValidity :: (normalizedListSide h).validities.drop 1 := by
  simp only [BinHelper.finish, BinHelper.finishImplDispatch] at hr
  split at hr
  all_goals
    obtain ⟨hn, hd, ho, hv⟩ := finishImpl_ok_shape _ _ _ _ hr
  all_goals
    refine ⟨hn, hd, ?_, ?_⟩ <;> simp_all [normalizedListSide]

theorem tryNew_ok_inl_spec (op : NumericListOp) (name : String) (dl dr : DataType)
    (ll lr : Nat) (sa sb : SideData) (vl vr : Option Bitmap) (h : BinHelper)
    (hnew : BinHelper.tryNew op name dl dr ll lr sa sb vl vr = .ok (.inl h)) :
    ∃ d0, applyTypeOf dl dr = .ok (h.opApplyType, d0) ∧
      classifyLengths ll lr = .ok (h.broadcast, h.outputLen) ∧
      h.op = op ∧ h.outputName = name ∧
      h.outputPrimitiveDtype = op.tryGetLeafSupertype dl.leafDtype dr.leafDtype ∧
      h.outputDtype = d0.castLeaf (op.tryGetLeafSupertype dl.leafDtype dr.leafDtype) ∧
      h.outerValidity = computeOuterValidity h.opApplyType h.broadcast vl vr h.outputLen ∧
      h.dataLhs = sa ∧ h.dataRhs = sb ∧ h.listToPrimLhs = none ∧ h.swapped = false ∧
      ¬ shortCircuitNull h.opApplyType h.outputLen ll lr vl vr := by
  cases hA : applyTypeOf dl dr with
  | error e =>
    unfold BinHelper.tryNew at hnew
    rw [hA] at hnew
    simp at hnew
  | ok p =>
    obtain ⟨apt, d0⟩ := p
    cases hC : classifyLengths ll lr with
    | error e =>
      rw [tryNew_classify_error op name dl dr ll lr sa sb vl vr (apt, d0) e hA hC] at hnew
      exact absurd hnew (by simp)
    | ok q =>
      obtain ⟨bc, olen⟩ := q
      rw [tryNew_eq_build op name dl dr ll lr sa sb vl vr apt d0 bc olen hA hC] at hnew
      split at hnew
      · simp at hnew
      · rename_i hsc
        simp only [Except.ok.injEq, Sum.inl.injEq] at hnew
        subst hnew
        exact ⟨d0, rfl, rfl, rfl, rfl, rfl, rfl, rfl, rfl, rfl, rfl, rfl, hsc⟩

/-- C10: every successful non-short-circuited result carries a
materialized outer validity bitmap of length `output_len` at its
outermost level; it is computed once during planning (the intersection
of the non-broadcasting list sides' outer validities, defaulting to
all-true) and installed unchanged at result assembly. -/
theorem claim_C10 (op : NumericListOp) (name : String) (dl dr : DataType)
    (ll lr : Nat) (sa sb : SideData) (vl vr : Option Bitmap) (h : BinHelper)
    (r : ListResult)
    (hnew : BinHelper.tryNew op name dl dr ll lr sa sb vl vr = .ok (.inl h))
    (hfin : h.finish = .ok r)
    (hvl : bitmapLenOk vl ll) (hvr : bitmapLenOk vr lr) :
    r.validities.headD none = some h.outerValidity ∧
    h.outerValidity = computeOuterValidity h.opApplyType h.broadcast vl vr h.outputLen ∧
    h.outerValidity.length = h.outputLen := by
  obtain ⟨d0, hA, hC, -, -, -, -, houter, -, -, -, -, -⟩ :=
    tryNew_ok_inl_spec op name dl dr ll lr sa sb vl vr h hnew
  obtain ⟨-, -, -, hv⟩ := finish_ok_sides h r hfin
  refine ⟨by rw [hv]; rfl, houter, ?_⟩
  rw [houter]
  exact computeOuterValidity_length _ _ vl vr ll lr _ hvl hvr hC

theorem claim_C10_witness :
    exR10.validities.headD none = some exH10.outerValidity ∧
    exH10.outerValidity = computeOuterValidity exH10.opApplyType exH10.broadcast
      none (some [true, false]) exH10.outputLen ∧
    exH10.outerValidity.length = exH10.outputLen :=
  claim_C10 .add "a" (.list (.prim .i64)) (.list (.prim .i64)) 2 2
    exListLen2.sideData exB10.sideData none (some [true, false]) exH10 exR10
    (by decide) (by decide) trivial (by decide)

theorem isPrim_iff (d : DataType) : d.isPrim = true ↔ ∃ t, d = .prim t := by
  cases d <;> simp [DataType.isPrim]

theorem applyTypeOf_spec (dl dr : DataType) (apt : BinaryOpApplyType) (d0 : DataType)
    (hA : applyTypeOf dl dr = .ok (apt, d0)) :
    (apt = .listToList ∧ (∃ x y, dl = .list (.prim x) ∧ dr = .list (.prim y)) ∧ d0 = dl) ∨
    (apt = .listToPrimitive ∧ (∃ i t, dl = .list i ∧ dr = .prim t) ∧ d0 = dl) ∨
    (apt = .primitiveToList ∧ (∃ t i, dl = .prim t ∧ dr = .list i) ∧ d0 = dr) := by
  cases dl with
  | prim t =>
    cases dr with
    | prim s => simp [applyTypeOf] at hA
    | list inner =>
      simp [applyTypeOf] at hA
      exact Or.inr (Or.inr ⟨hA.1.symm, ⟨t, inner, rfl, rfl⟩, hA.2.symm⟩)
  | list inner =>
    cases dr with
    | prim s =>
      simp [applyTypeOf] at hA
      exact Or.inr (Or.inl ⟨hA.1.symm, ⟨inner, s, rfl, rfl⟩, hA.2.symm⟩)
    | list innerR =>
      simp only [applyTypeOf] at hA
      split at hA
      · rename_i hp
        simp only [Bool.and_eq_true] at hp
        obtain ⟨x, hx⟩ := (isPrim_iff inner).mp hp.1
        obtain ⟨y, hy⟩ := (isPrim_iff innerR).mp hp.2
        simp at hA
        exact Or.inl ⟨hA.1.symm, ⟨x, y, by rw [hx], by rw [hy]⟩, hA.2.symm⟩
      · simp at hA

theorem sliceRepLevels_offsets_length (os : List Offs) :
    ∀ (vs : List (Option Bitmap)) (lo hi n : Nat),
      (sliceRepLevels os vs lo hi n).1.length = os.length := by
  induction os with
  | nil => intro vs lo hi n; rfl
  | cons o os ih =>
    intro vs lo hi n
    simp [sliceRepLevels, ih]

theorem materializeBroadcastedList_offsets_length (sd : SideData) (olen : Nat)
    (t : DType) :
    (materializeBroadcastedList sd olen t).2.offsets.length = sd.series.offsets.length := by
  simp [materializeBroadcastedList, broadcastUnitList, sliceRepLevels_offsets_length]

/-- C8: the successful output is assembled from the (normalized) lhs
list operand: its offsets and per-level validities are installed
unchanged, except the outermost validity which is replaced by the
pre-combined outer validity; the nesting depth equals the list
operand's depth, and without broadcast the offsets (hence all per-row,
per-level widths) are exactly the list operand's. -/
theorem claim_C8 (op : NumericListOp) (a b : Series) (h : BinHelper) (r : ListResult)
    (hnew : BinHelper.tryNew op a.name a.dtype b.dtype a.len b.len
      a.sideData b.sideData a.rechunkValidity b.rechunkValidity = .ok (.inl h))
    (hfin : h.finish = .ok r)
    (hwa : a.WF) (hwb : b.WF) :
    r.offsets = (normalizedListSide h).offsets ∧
    r.validities = some h.outerValidity :: (normalizedListSide h).validities.drop 1 ∧
    r.offsets.length = max a.dtype.depth b.dtype.depth ∧
    (h.broadcast = .noBroadcast →
      r.offsets = (if h.opApplyType = .primitiveToList then b else a).offsets ∧
      r.validities.drop 1 =
        (if h.opApplyType = .primitiveToList then b else a).validities.drop 1) := by
  obtain ⟨d0, hA, hC, -, -, -, -, -, hLhs, hRhs, -, -, -⟩ :=
    tryNew_ok_inl_spec op a.name a.dtype b.dtype a.len b.len
      a.sideData b.sideData a.rechunkValidity b.rechunkValidity h hnew
  obtain ⟨-, -, ho, hv⟩ := finish_ok_sides h r hfin
  have hda : a.offsets.length = a.dtype.depth := hwa.1
  have hdb : b.offsets.length = b.dtype.depth := hwb.1
  have hnorm : (normalizedListSide h).offsets.length = max a.dtype.depth b.dtype.depth := by
    rcases applyTypeOf_spec _ _ _ _ hA with
      ⟨hapt, ⟨x, y, hdl, hdr⟩, -⟩ | ⟨hapt, ⟨i, t, hdl, hdr⟩, -⟩ | ⟨hapt, ⟨t, i, hdl, hdr⟩, -⟩
    · -- ListToList: both sides are depth-1 lists
      unfold normalizedListSide
      rw [hapt]
      cases hbc : h.broadcast <;>
        simp [hLhs, hRhs, Series.sideData, hda, hdb, hdl, hdr, DataType.depth]
    · -- ListToPrimitive: the lhs is the list operand
      unfold normalizedListSide
      rw [hapt]
      cases hbc : h.broadcast <;>
        simp [materializeBroadcastedList_offsets_length, hLhs, hRhs, Series.sideData,
          hda, hdb, hdl, hdr, DataType.depth]
    · -- PrimitiveToList: the rhs is the list operand
      unfold normalizedListSide
      rw [hapt]
      cases hbc : h.broadcast <;>
        simp [materializeBroadcastedList_offsets_length, hLhs, hRhs, Series.sideData,
          hda, hdb, hdl, hdr, DataType.depth]
  refine ⟨ho, hv, by rw [ho, hnorm], ?_⟩
  intro hbc
  have hside : normalizedListSide h =
      (if h.opApplyType = .primitiveToList then b else a).sideData := by
    unfold normalizedListSide
    rw [hbc]
    cases hapt : h.opApplyType <;> simp [hLhs, hRhs]
  rw [ho, hv, hside]
  cases hapt : h.opApplyType <;> simp [Series.sideData]

theorem execDenoteEq_of_ok (op : NumericListOp) (a b : Series) (r1 r2 : ListResult)
    (h1 : op.execute a b = .ok r1) (h2 : op.execute b a = .ok r2)
    (h : r1.denote = r2.denote) : execDenoteEq op a b := by
  unfold execDenoteEq
  rw [h1, h2]
  exact h

theorem execDenoteEq_of_err (op : NumericListOp) (a b : Series) (e1 e2 : PolarsError)
    (h1 : op.execute a b = .error e1) (h2 : op.execute b a = .error e2) :
    execDenoteEq op a b := by
  unfold execDenoteEq
  rw [h1, h2]
  trivial

theorem execDenoteEq_symm (op : NumericListOp) (a b : Series)
    (h : execDenoteEq op a b) : execDenoteEq op b a := by
  unfold execDenoteEq at h ⊢
  cases h1 : op.execute a b <;> cases h2 : op.execute b a <;>
    rw [h1, h2] at h <;> simp_all

theorem execute_applyType_error (op : NumericListOp) (a b : Series) (e : PolarsError)
    (hA : applyTypeOf a.dtype b.dtype = .error e) :
    op.execute a b = .error e := by
  unfold NumericListOp.execute BinHelper.tryNew
  rw [hA]

theorem execute_sc_ok (op : NumericListOp) (a b : Series)
    (apt : BinaryOpApplyType) (d0 : DataType) (bc : Broadcast) (olen : Nat)
    (hA : applyTypeOf a.dtype b.dtype = .ok (apt, d0))
    (hC : classifyLengths a.len b.len = .ok (bc, olen))
    (hsc : shortCircuitNull apt olen a.len b.len a.rechunkValidity b.rechunkValidity) :
    op.execute a b =
      .ok (fullNullWithDtype a.name olen
        ((d0.castLeaf (op.tryGetLeafSupertype a.dtype.leafDtype b.dtype.leafDtype)).innerOf)) := by
  unfold NumericListOp.execute
  rw [tryNew_eq_build op a.name a.dtype b.dtype a.len b.len a.sideData b.sideData
    a.rechunkValidity b.rechunkValidity apt d0 bc olen hA hC, if_pos hsc]

theorem execute_classify_error (op : NumericListOp) (a b : Series)
    (p : BinaryOpApplyType × DataType) (e : PolarsError)
    (hA : applyTypeOf a.dtype b.dtype = .ok p)
    (hC : classifyLengths a.len b.len = .error e) :
    op.execute a b = .error e := by
  unfold NumericListOp.execute
  rw [tryNew_classify_error op a.name a.dtype b.dtype a.len b.len a.sideData b.sideData
    a.rechunkValidity b.rechunkValidity p e hA hC]

/-! ## The mismatch cursors -/
theorem mismatchCursorNB_all (offL offR : Offs) (outer : Bitmap) (n : Nat)
    (h : ∀ i, i < n → (lengthAt offL i = lengthAt offR i ∨ outer.getD i true = false)) :
    mismatchCursorNB offL offR outer n = n := by
  induction n with
  | zero => rfl
  | succ m ih =>
    unfold mismatchCursorNB at ih ⊢
    rw [List.range_succ, List.foldl_append, List.foldl_cons, List.foldl_nil]
    rw [ih (fun i hi => h i (by omega))]
    rw [if_pos ⟨rfl, h m (by omega)⟩]

theorem mismatchCursorNB_firstBad (offL offR : Offs) (outer : Bitmap) (i0 : Nat)
    (hbad : ¬(lengthAt offL i0 = lengthAt offR i0 ∨ outer.getD i0 true = false))
    (hgood : ∀ j, j < i0 → (lengthAt offL j = lengthAt offR j ∨ outer.getD j true = false)) :
    ∀ n, i0 < n → mismatchCursorNB offL offR outer n = i0 := by
  intro n
  induction n with
  | zero => omega
  | succ m ih =>
    intro hi
    unfold mismatchCursorNB at ih ⊢
    rw [List.range_succ, List.foldl_append, List.foldl_cons, List.foldl_nil]
    by_cases hm : i0 = m
    · subst hm
      have hall : mismatchCursorNB offL offR outer i0 = i0 :=
        mismatchCursorNB_all offL offR outer i0 hgood
      unfold mismatchCursorNB at hall
      rw [hall, if_neg (fun hcon => hbad hcon.2)]
    · rw [ih (by omega), if_neg (fun hcon => hm hcon.1)]

theorem mismatchCursorRight_all (offL : Offs) (width : Nat) (outer : Bitmap) (n : Nat)
    (h : ∀ i, i < n → (lengthAt offL i = width ∨ outer.getD i true = false)) :
    mismatchCursorRight offL width outer n = n := by
  induction n with
  | zero => rfl
  | succ m ih =>
    unfold mismatchCursorRight at ih ⊢
    rw [List.range_succ, List.foldl_append, List.foldl_cons, List.foldl_nil]
    rw [ih (fun i hi => h i (by omega))]
    rcases h m (by omega) with hw | hb
    · rw [if_pos (Or.inl ⟨hw, rfl⟩)]
    · rw [if_pos (Or.inr hb)]

theorem mismatchCursorRight_step_le (offL : Offs) (width : Nat) (outer : Bitmap)
    (m : Nat) :
    mismatchCursorRight offL width outer (m + 1) ≤ mismatchCursorRight offL width outer m + 1 := by
  unfold mismatchCursorRight
  rw [List.range_succ, List.foldl_append, List.foldl_cons, List.foldl_nil]
  split <;> omega

theorem mismatchCursorRight_belowAfterBad (offL : Offs) (width : Nat) (outer : Bitmap)
    (i0 : Nat)
    (hbadw : lengthAt offL i0 ≠ width) (hbadv : outer.getD i0 true = true)
    (hgood : ∀ j, j < i0 → (lengthAt offL j = width ∨ outer.getD j true = false)) :
    ∀ n, i0 < n → mismatchCursorRight offL width outer n < n := by
  intro n
  induction n with
  | zero => omega
  | succ m ih =>
    intro hi
    by_cases hm : i0 = m
    · subst hm
      have hall : mismatchCursorRight offL width outer i0 = i0 :=
        mismatchCursorRight_all offL width outer i0 hgood
      unfold mismatchCursorRight at hall ⊢
      rw [List.range_succ, List.foldl_append, List.foldl_cons, List.foldl_nil]
      rw [hall]
      rw [if_neg ?side]
      · omega
      case side =>
        rintro (⟨hw, -⟩ | hv)
        · exact hbadw hw
        · rw [hbadv] at hv; exact Bool.noConfusion hv
    · have := ih (by omega)
      have hstep := mismatchCursorRight_step_le offL width outer m
      omega

/-! ## Outer-validity bit lemmas -/
theorem zipWith_and_getD (l : List Bool) :
    ∀ (r : List Bool) (i : Nat), i < l.length → l.length = r.length →
      (List.zipWith (· && ·) l r).getD i true = (l.getD i true && r.getD i true) := by
  induction l with
  | nil => intro r i hi; simp at hi
  | cons x xs ih =>
    intro r i hi hlen
    cases r with
    | nil => simp at hlen
    | cons y ys =>
      cases i with
      | zero => rfl
      | succ k =>
        simp only [List.zipWith_cons_cons, List.getD_cons_succ]
        exact ih ys k (by simpa using hi) (by simpa using hlen)

theorem computeOuter_LtL_noB_getD (va vb : Option Bitmap) (n i : Nat)
    (hva : bitmapLenOk va n) (hvb : bitmapLenOk vb n) (hi : i < n) :
    (computeOuterValidity .listToList .noBroadcast va vb n).getD i true =
      (bitGetOpt va i && bitGetOpt vb i) := by
  cases va with
  | none =>
    cases vb with
    | none =>
      simp only [computeOuterValidity, combineValiditiesAnd, Option.getD, bitGetOpt]
      rw [getD_replicate n i true true hi]
      rfl
    | some r => simp [computeOuterValidity, combineValiditiesAnd, bitGetOpt]
  | some l =>
    cases vb with
    | none => simp [computeOuterValidity, combineValiditiesAnd, bitGetOpt]
    | some r =>
      simp only [computeOuterValidity, combineValiditiesAnd, Option.getD, bitGetOpt]
      exact zipWith_and_getD l r i (by rw [hva]; exact hi) (by rw [hva, hvb])

theorem WF_outer_validity_len (s : Series) (hs : s.WF) :
    bitmapLenOk s.rechunkValidity s.len := by
  obtain ⟨-, -, hleaf, hlev⟩ := hs
  cases ho : s.offsets with
  | nil =>
    simp only [Series.rechunkValidity, Series.len, ho]
    exact hleaf
  | cons o os =>
    rw [ho] at hlev
    simp only [Series.rechunkValidity, ho]
    exact hlev.2.2.2.1

theorem WF_lenProxy_head (s : Series) (hs : s.WF) (o : Offs) (os : List Offs)
    (ho : s.offsets = o :: os) : lenProxy o = s.len := by
  obtain ⟨-, -, -, hlev⟩ := hs
  rw [ho] at hlev
  have h1 : o.length = s.len + 1 := hlev.1
  simp [lenProxy, h1]

theorem outerNullAt0_bit (v : Option Bitmap) (h : outerNullAt0 v = true) :
    bitGetOpt v 0 = false := by
  cases v <;> simp_all [outerNullAt0, bitGetOpt]

theorem execute_LtL_noB (op : NumericListOp) (a b : Series) (ta tb : DType)
    (hda : a.dtype = .list (.prim ta)) (hdb : b.dtype = .list (.prim tb))
    (hlen : a.len = b.len)
    (hsc : ¬ shortCircuitNull .listToList a.len a.len b.len
      a.rechunkValidity b.rechunkValidity) :
    op.execute a b =
      (match checkMismatchPos
          (mismatchPosNoBroadcast (a.offsets.headD []) (b.offsets.headD [])
            (computeOuterValidity .listToList .noBroadcast
              a.rechunkValidity b.rechunkValidity a.len))
          (a.offsets.headD []) (b.offsets.headD []) with
       | .error e => .error e
       | .ok _ => .ok (ltlNoBResult op a b)) := by
  have hA : applyTypeOf a.dtype b.dtype = .ok (.listToList, .list (.prim ta)) := by
    rw [hda, hdb]; rfl
  have hC : classifyLengths a.len b.len = .ok (.noBroadcast, a.len) := by
    simp [classifyLengths, hlen]
  unfold NumericListOp.execute
  rw [tryNew_eq_build op a.name a.dtype b.dtype a.len b.len a.sideData b.sideData
    a.rechunkValidity b.rechunkValidity .listToList (.list (.prim ta)) .noBroadcast a.len
    hA hC, if_neg hsc]
  show BinHelper.finish _ = _
  unfold BinHelper.finish BinHelper.finishImplDispatch BinHelper.finishImpl
    BinHelper.prepForImpl
  simp only [Series.sideData]
  rfl

/-- C2: `ListToList` without broadcast on equal-length columns raises
`ShapeMismatch` naming the first row index whose widths disagree while
the (combined) outer-validity bit is true, with the two widths; if every
row has equal widths or a false outer bit, no shape error is raised. -/
theorem claim_C2 (op : NumericListOp) (a b : Series) (ta tb : DType)
    (hda : a.dtype = .list (.prim ta)) (hdb : b.dtype = .list (.prim tb))
    (hlen : a.len = b.len) (hwa : a.WF) (hwb : b.WF) :
    ((∀ i, i < a.len →
        (computeOuterValidity .listToList .noBroadcast a.rechunkValidity
            b.rechunkValidity a.len).getD i true = true →
        lengthAt (a.offsets.headD []) i = lengthAt (b.offsets.headD []) i) →
      ∃ res, op.execute a b = .ok res) ∧
    (∀ i0, i0 < a.len →
      (computeOuterValidity .listToList .noBroadcast a.rechunkValidity
          b.rechunkValidity a.len).getD i0 true = true →
      lengthAt (a.offsets.headD []) i0 ≠ lengthAt (b.offsets.headD []) i0 →
      (∀ j, j < i0 →
        (computeOuterValidity .listToList .noBroadcast a.rechunkValidity
            b.rechunkValidity a.len).getD j true = true →
        lengthAt (a.offsets.headD []) j = lengthAt (b.offsets.headD []) j) →
      op.execute a b = .error (.shapeMismatchAt i0
        (lengthAt (a.offsets.headD []) i0) (lengthAt (b.offsets.headD []) i0))) := by
  have hA : applyTypeOf a.dtype b.dtype = .ok (.listToList, .list (.prim ta)) := by
    rw [hda, hdb]; rfl
  have hC : classifyLengths a.len b.len = .ok (.noBroadcast, a.len) := by
    simp [classifyLengths, hlen]
  have hva : bitmapLenOk a.rechunkValidity a.len := WF_outer_validity_len a hwa
  have hvb : bitmapLenOk b.rechunkValidity a.len := by
    rw [hlen]; exact WF_outer_validity_len b hwb
  by_cases hsc : shortCircuitNull .listToList a.len a.len b.len
      a.rechunkValidity b.rechunkValidity
  · -- short-circuited: all-null result, no error; and no bad row can exist
    have hex : op.execute a b =
        .ok (fullNullWithDtype a.name a.len
          (((DataType.list (.prim ta)).castLeaf
            (op.tryGetLeafSupertype a.dtype.leafDtype b.dtype.leafDtype)).innerOf)) := by
      unfold NumericListOp.execute
      rw [tryNew_eq_build op a.name a.dtype b.dtype a.len b.len a.sideData b.sideData
        a.rechunkValidity b.rechunkValidity .listToList (.list (.prim ta)) .noBroadcast a.len
        hA hC, if_pos hsc]
    refine ⟨fun _ => ⟨_, hex⟩, ?_⟩
    intro i0 hi0 hbit hne hmin
    exfalso
    rcases hsc with h0 | ⟨h1, -, hnull⟩ | ⟨h1, -, hnull⟩
    · omega
    · have hi00 : i0 = 0 := by omega
      subst hi00
      rw [computeOuter_LtL_noB_getD _ _ _ _ hva hvb hi0,
        outerNullAt0_bit _ hnull] at hbit
      simp at hbit
    · have ha1 : a.len = 1 := by omega
      have hi00 : i0 = 0 := by omega
      subst hi00
      rw [computeOuter_LtL_noB_getD _ _ _ _ hva hvb hi0,
        outerNullAt0_bit _ hnull] at hbit
      simp at hbit
  · -- the physical path
    have hchar := execute_LtL_noB op a b ta tb hda hdb hlen hsc
    obtain ⟨o, os, ho⟩ : ∃ o os, a.offsets = o :: os := by
      obtain ⟨hd, -, -, -⟩ := hwa
      rw [hda] at hd
      cases hoa : a.offsets with
      | nil => rw [hoa] at hd; simp [DataType.depth] at hd
      | cons o os => exact ⟨o, os, rfl⟩
    have hproxy : lenProxy (a.offsets.headD []) = a.len := by
      rw [ho]; exact WF_lenProxy_head a hwa o os ho
    constructor
    · intro hok
      rw [hchar]
      have hall : mismatchPosNoBroadcast (a.offsets.headD []) (b.offsets.headD [])
          (computeOuterValidity .listToList .noBroadcast a.rechunkValidity
            b.rechunkValidity a.len) = a.len := by
        unfold mismatchPosNoBroadcast
        rw [hproxy]
        refine mismatchCursorNB_all _ _ _ _ (fun i hi => ?_)
        by_cases hbit : (computeOuterValidity .listToList .noBroadcast a.rechunkValidity
            b.rechunkValidity a.len).getD i true = true
        · exact Or.inl (hok i hi hbit)
        · exact Or.inr (by simpa using hbit)
      rw [hall]
      unfold checkMismatchPos
      rw [if_neg (by omega)]
      exact ⟨_, rfl⟩
    · intro i0 hi0 hbit hne hmin
      rw [hchar]
      have hpos : mismatchPosNoBroadcast (a.offsets.headD []) (b.offsets.headD [])
          (computeOuterValidity .listToList .noBroadcast a.rechunkValidity
            b.rechunkValidity a.len) = i0 := by
        unfold mismatchPosNoBroadcast
        rw [hproxy]
        refine mismatchCursorNB_firstBad _ _ _ i0 ?_ ?_ a.len hi0
        · rintro (hw | hv)
          · exact hne hw
          · rw [hbit] at hv; exact Bool.noConfusion hv
        · intro j hj
          by_cases hbj : (computeOuterValidity .listToList .noBroadcast a.rechunkValidity
              b.rechunkValidity a.len).getD j true = true
          · exact Or.inl (hmin j hj hbj)
          · exact Or.inr (by simpa using hbj)
      rw [hpos]
      unfold checkMismatchPos
      rw [if_pos (by omega)]
      have hoB : ∃ oB osB, b.offsets = oB :: osB := by
        obtain ⟨hd, -, -, -⟩ := hwb
        rw [hdb] at hd
        cases hob : b.offsets with
        | nil => rw [hob] at hd; simp [DataType.depth] at hd
        | cons oB osB => exact ⟨oB, osB, rfl⟩
      obtain ⟨oB, osB, hob⟩ := hoB
      have hproxyB : lenProxy (b.offsets.headD []) = b.len := by
        rw [hob]; exact WF_lenProxy_head b hwb oB osB hob
      have hidx : (if lenProxy (b.offsets.headD []) = 1 then 0 else i0) = i0 := by
        split
        · rename_i h1
          rw [hproxyB] at h1
          omega
        · rfl
      rw [hidx]

theorem ltl_rows_ord (offL offR : Offs) (hm : offsMono offL) :
    ∀ p q, p < q → q < lenProxy offL →
      offGet offL p + min (lengthAt offL p) (lengthAt offR p) ≤ offGet offL q := by
  intro p q hpq hq
  have h1 : offGet offL p ≤ offGet offL (p + 1) := hm p (by omega)
  have h2 : min (lengthAt offL p) (lengthAt offR p) ≤ offGet offL (p + 1) - offGet offL p :=
    Nat.min_le_left _ _
  have h4 : offGet offL (p + 1) ≤ offGet offL q :=
    offsMono_le offL hm (p + 1) q (by omega) (by omega)
  omega

theorem ltlNoBroadcastOut_getD (op : NumericListOp) (t : DType) (sw : Bool)
    (offL offR : Offs) (arrL arrR : PrimArray) (i j : Nat)
    (hm : offsMono offL) (hi : i < lenProxy offL)
    (hj : j < min (lengthAt offL i) (lengthAt offR i))
    (hb : offGet offL i + j < arrL.size) :
    (ltlNoBroadcastOut op t sw offL offR arrL arrR).getD (offGet offL i + j) 0 =
      op.applyBin t sw (arrL.getV (offGet offL i + j)) (arrR.getV (offGet offR i + j)) := by
  have heq : ltlNoBroadcastOut op t sw offL offR arrL arrR =
      rowsWriteFold (fun i => offGet offL i)
        (fun i => min (lengthAt offL i) (lengthAt offR i))
        (fun i j =>
          op.applyBin t sw (arrL.getV (offGet offL i + j)) (arrR.getV (offGet offR i + j)))
        (List.replicate arrL.size 0) (lenProxy offL) := rfl
  rw [heq]
  exact rowsWriteFold_getD _ _ _ _ _ (ltl_rows_ord offL offR hm) i j hi hj
    (by simpa using hb)

theorem combineLtLNoB_getD (offL offR : Offs) (vl vr : Option Bitmap) (lenL : Nat)
    (hm : offsMono offL) (i j : Nat) (hi : i < lenProxy offL)
    (hj : j < min (lengthAt offL i) (lengthAt offR i))
    (hb : offGet offL i + j < lenL)
    (hvl : bitmapLenOk vl lenL) :
    bitGetOpt (combineValiditiesListToListNoBroadcast offL offR vl vr lenL)
        (offGet offL i + j) =
      (bitGetOpt vl (offGet offL i + j) && bitGetOpt vr (offGet offR i + j)) := by
  cases vl with
  | none =>
    cases vr with
    | none => simp [combineValiditiesListToListNoBroadcast, bitGetOpt]
    | some r =>
      show (rowsAndFold (fun i => offGet offL i)
          (fun i => min (lengthAt offL i) (lengthAt offR i))
          (fun i j => r.getD (offGet offR i + j) true)
          (List.replicate lenL true) (lenProxy offL)).getD (offGet offL i + j) true = _
      rw [rowsAndFold_getD _ _ _ _ _ (ltl_rows_ord offL offR hm) i j hi hj
        (by simpa using hb)]
      rw [getD_replicate lenL _ true true hb]
      rfl
  | some l =>
    cases vr with
    | none => simp [combineValiditiesListToListNoBroadcast, bitGetOpt]
    | some r =>
      show (rowsAndFold (fun i => offGet offL i)
          (fun i => min (lengthAt offL i) (lengthAt offR i))
          (fun i j => r.getD (offGet offR i + j) true)
          l (lenProxy offL)).getD (offGet offL i + j) true = _
      rw [rowsAndFold_getD _ _ _ _ _ (ltl_rows_ord offL offR hm) i j hi hj
        (by rw [hvl]; exact hb)]
      rfl

/-! ## Commutativity and swapped-flag helpers -/
theorem st2_comm : ∀ a b : DType, DType.st2 a b = DType.st2 b a := by
  intro a b
  cases a <;> cases b <;> rfl

theorem tryGetLeafSupertype_comm (op : NumericListOp) (x y : DType) :
    op.tryGetLeafSupertype x y = op.tryGetLeafSupertype y x := by
  unfold NumericListOp.tryGetLeafSupertype
  rw [st2_comm]

theorem combineValiditiesAnd_comm (vl vr : Option Bitmap) :
    combineValiditiesAnd vl vr = combineValiditiesAnd vr vl := by
  cases vl with
  | none => cases vr <;> rfl
  | some l =>
    cases vr with
    | none => rfl
    | some r =>
      show some (List.zipWith (· && ·) l r) = some (List.zipWith (· && ·) r l)
      rw [List.zipWith_comm_of_comm _ Bool.and_comm]

theorem computeOuter_LtL_noB_comm (vl vr : Option Bitmap) (n : Nat) :
    computeOuterValidity .listToList .noBroadcast vl vr n =
      computeOuterValidity .listToList .noBroadcast vr vl n := by
  unfold computeOuterValidity
  rw [combineValiditiesAnd_comm]

theorem prep_addmul (op : NumericListOp) (hop : op = .add ∨ op = .mul)
    (t : DType) (l r : PrimArray) (sw : Bool) :
    op.prepareNumericOpSideValidities t l r sw = (l, r) := by
  rcases hop with h | h <;> subst h <;>
    (unfold NumericListOp.prepareNumericOpSideValidities; split <;> rfl)

theorem applyBin_addmul_sw (op : NumericListOp) (hop : op = .add ∨ op = .mul)
    (t : DType) (sw : Bool) (l r : Int) :
    op.applyBin t sw l r = op.applyBin t false l r := by
  rcases hop with h | h <;> subst h <;> rfl

theorem applyBin_addmul_comm (op : NumericListOp) (hop : op = .add ∨ op = .mul)
    (t : DType) (l r : Int) :
    op.applyBin t false l r = op.applyBin t false r l := by
  rcases hop with h | h <;> subst h
  · show pnAdd t l r = pnAdd t r l
    unfold pnAdd
    rw [Int.add_comm]
  · show pnMul t l r = pnMul t r l
    unfold pnMul
    rw [Int.mul_comm]

theorem ltlBroadcastRightOut_sw (op : NumericListOp) (hop : op = .add ∨ op = .mul)
    (t : DType) (sw : Bool) (offL : Offs) (rhsStart width : Nat) (arrL arrR : PrimArray) :
    ltlBroadcastRightOut op t sw offL rhsStart width arrL arrR =
      ltlBroadcastRightOut op t false offL rhsStart width arrL arrR := by
  unfold ltlBroadcastRightOut
  simp only [applyBin_addmul_sw op hop]

theorem ltpNoBroadcastOut_sw (op : NumericListOp) (hop : op = .add ∨ op = .mul)
    (t : DType) (sw : Bool) (offLevels : List Offs) (arrL arrR : PrimArray) :
    ltpNoBroadcastOut op t sw offLevels arrL arrR =
      ltpNoBroadcastOut op t false offLevels arrL arrR := by
  unfold ltpNoBroadcastOut
  simp only [applyBin_addmul_sw op hop]

theorem ltpNoBroadcastInPlace_sw (op : NumericListOp) (hop : op = .add ∨ op = .mul)
    (t : DType) (sw : Bool) (offLevels : List Offs) (baseVals : List Int)
    (arrR : PrimArray) :
    ltpNoBroadcastInPlace op t sw offLevels baseVals arrR =
      ltpNoBroadcastInPlace op t false offLevels baseVals arrR := by
  unfold ltpNoBroadcastInPlace
  simp only [applyBin_addmul_sw op hop]

theorem applyArrayToScalar_sw (op : NumericListOp) (hop : op = .add ∨ op = .mul)
    (t : DType) (arr : PrimArray) (r : Int) (sw : Bool) :
    op.applyArrayToScalar t arr r sw = op.applyArrayToScalar t arr r false := by
  rcases hop with h | h <;> subst h
  · unfold NumericListOp.applyArrayToScalar
    simp only [applyBin_addmul_sw .add (Or.inl rfl)]
  · unfold NumericListOp.applyArrayToScalar
    simp only [applyBin_addmul_sw .mul (Or.inr rfl)]

theorem denote_of_fields (r1 r2 : ListResult) (ho : r1.offsets = r2.offsets)
    (hv : r1.validities = r2.validities) (hl : r1.leaf = r2.leaf) :
    r1.denote = r2.denote := by
  unfold ListResult.denote ListResult.len
  rw [ho, hv, hl]

theorem denoteLevels_cons (o : Offs) (v : Option Bitmap)
    (rest : List (Offs × Option Bitmap)) (leaf : PrimArray) (lo hi : Nat) :
    denoteLevels ((o, v) :: rest) leaf lo hi =
      (List.range (hi - lo)).map (fun j =>
        if bitGetOpt v (lo + j) then
          .lst (some (denoteLevels rest leaf (offGet o (lo + j)) (offGet o (lo + j + 1))))
        else .lst none) := rfl

theorem denoteLevels_nil (leaf : PrimArray) (lo hi : Nat) :
    denoteLevels [] leaf lo hi =
      (List.range (hi - lo)).map (fun j =>
        .prim (if leaf.isValidAt (lo + j) then some (leaf.getV (lo + j)) else none)) := rfl

theorem denote_fullNull (name : String) (n : Nat) (inner : DataType) :
    (fullNullWithDtype name n inner).denote =
      (List.range n).map (fun _ => NVal.lst none) := by
  unfold ListResult.denote
  rw [fullNull_len]
  show denoteLevels ((List.replicate (n + 1) 0 :: emptyLevelsOffsets inner).zip
    (some (List.replicate n false) :: emptyLevelsValidities inner)) ⟨[], none⟩ 0 n = _
  rw [List.zip_cons_cons, denoteLevels_cons]
  simp only [Nat.sub_zero]
  refine List.map_congr_left (fun j hj => ?_)
  have hjn : j < n := by simpa using hj
  simp only [Nat.zero_add, bitGetOpt]
  rw [getD_replicate n j false true hjn]
  rfl

theorem claim_C2_witness :
    NumericListOp.add.execute exC2a exC2b = .error (.shapeMismatchAt 1 1 2) :=
  (claim_C2 .add exC2a exC2b .i64 .i64 rfl rfl rfl (by decide) (by decide)).2 1
    (by decide) (by decide) (by decide)
    (by
      intro j hj hb
      have hj0 : j = 0 := by omega
      subst hj0
      decide)

theorem execute_LtL_right (op : NumericListOp) (a b : Series) (ta tb : DType)
    (hda : a.dtype = .list (.prim ta)) (hdb : b.dtype = .list (.prim tb))
    (hb1 : b.len = 1) (ha1 : a.len ≠ 1)
    (hsc : ¬ shortCircuitNull .listToList a.len a.len b.len
      a.rechunkValidity b.rechunkValidity) :
    op.execute a b =
      (match checkMismatchPos
          (mismatchPosBroadcastRight (a.offsets.headD [])
            (offRange (b.offsets.headD []))
            (computeOuterValidity .listToList .right
              a.rechunkValidity b.rechunkValidity a.len))
          (a.offsets.headD []) (b.offsets.headD []) with
       | .error e => .error e
       | .ok _ => .ok (ltlRightAssembled op a.name
           (op.tryGetLeafSupertype a.dtype.leafDtype b.dtype.leafDtype) false
           (computeOuterValidity .listToList .right
             a.rechunkValidity b.rechunkValidity a.len) a b)) := by
  have hA : applyTypeOf a.dtype b.dtype = .ok (.listToList, .list (.prim ta)) := by
    rw [hda, hdb]; rfl
  have hC : classifyLengths a.len b.len = .ok (.right, a.len) := by
    simp [classifyLengths, hb1, ha1]
  unfold NumericListOp.execute
  rw [tryNew_eq_build op a.name a.dtype b.dtype a.len b.len a.sideData b.sideData
    a.rechunkValidity b.rechunkValidity .listToList (.list (.prim ta)) .right a.len
    hA hC, if_neg hsc]
  show BinHelper.finish _ = _
  unfold BinHelper.finish BinHelper.finishImplDispatch BinHelper.finishImpl
    BinHelper.prepForImpl
  simp only [Series.sideData]
  rfl

theorem execute_LtL_left (op : NumericListOp) (a b : Series) (ta tb : DType)
    (hda : a.dtype = .list (.prim ta)) (hdb : b.dtype = .list (.prim tb))
    (ha1 : a.len = 1) (hb1 : b.len ≠ 1)
    (hsc : ¬ shortCircuitNull .listToList b.len a.len b.len
      a.rechunkValidity b.rechunkValidity) :
    op.execute a b =
      (match checkMismatchPos
          (mismatchPosBroadcastRight (b.offsets.headD [])
            (offRange (a.offsets.headD []))
            (computeOuterValidity .listToList .left
              a.rechunkValidity b.rechunkValidity b.len))
          (b.offsets.headD []) (a.offsets.headD []) with
       | .error e => .error e
       | .ok _ => .ok (ltlRightAssembled op a.name
           (op.tryGetLeafSupertype a.dtype.leafDtype b.dtype.leafDtype) true
           (computeOuterValidity .listToList .left
             a.rechunkValidity b.rechunkValidity b.len) b a)) := by
  have hA : applyTypeOf a.dtype b.dtype = .ok (.listToList, .list (.prim ta)) := by
    rw [hda, hdb]; rfl
  have hC : classifyLengths a.len b.len = .ok (.left, b.len) := by
    have h1' : (1 : Nat) ≠ b.len := fun hh => hb1 hh.symm
    simp [classifyLengths, ha1, h1']
  unfold NumericListOp.execute
  rw [tryNew_eq_build op a.name a.dtype b.dtype a.len b.len a.sideData b.sideData
    a.rechunkValidity b.rechunkValidity .listToList (.list (.prim ta)) .left b.len
    hA hC, if_neg hsc]
  show BinHelper.finish _ = _
  unfold BinHelper.finish BinHelper.finishImplDispatch BinHelper.finishImpl
    BinHelper.prepForImpl
  simp only [Series.sideData]
  rfl

theorem execute_LtP_noB (op : NumericListOp) (a b : Series) (ia : DataType) (tb : DType)
    (hda : a.dtype = .list ia) (hdb : b.dtype = .prim tb)
    (hlen : a.len = b.len)
    (hsc : ¬ shortCircuitNull .listToPrimitive a.len a.len b.len
      a.rechunkValidity b.rechunkValidity) :
    op.execute a b =
      .ok (ltpNoBAssembled op a.name
        (op.tryGetLeafSupertype a.dtype.leafDtype b.dtype.leafDtype) false
        (computeOuterValidity .listToPrimitive .noBroadcast
          a.rechunkValidity b.rechunkValidity a.len) a b) := by
  have hA : applyTypeOf a.dtype b.dtype = .ok (.listToPrimitive, .list ia) := by
    rw [hda, hdb]; rfl
  have hC : classifyLengths a.len b.len = .ok (.noBroadcast, a.len) := by
    simp [classifyLengths, hlen]
  unfold NumericListOp.execute
  rw [tryNew_eq_build op a.name a.dtype b.dtype a.len b.len a.sideData b.sideData
    a.rechunkValidity b.rechunkValidity .listToPrimitive (.list ia) .noBroadcast a.len
    hA hC, if_neg hsc]
  show BinHelper.finish _ = _
  unfold BinHelper.finish BinHelper.finishImplDispatch BinHelper.finishImpl
    BinHelper.prepForImpl
  simp only [Series.sideData]
  rfl

theorem execute_PtL_noB (op : NumericListOp) (a b : Series) (ta : DType) (ib : DataType)
    (hda : a.dtype = .prim ta) (hdb : b.dtype = .list ib)
    (hlen : a.len = b.len)
    (hsc : ¬ shortCircuitNull .primitiveToList a.len a.len b.len
      a.rechunkValidity b.rechunkValidity) :
    op.execute a b =
      .ok (ltpNoBAssembled op a.name
        (op.tryGetLeafSupertype a.dtype.leafDtype b.dtype.leafDtype) true
        (computeOuterValidity .primitiveToList .noBroadcast
          a.rechunkValidity b.rechunkValidity a.len) b a) := by
  have hA : applyTypeOf a.dtype b.dtype = .ok (.primitiveToList, .list ib) := by
    rw [hda, hdb]; rfl
  have hC : classifyLengths a.len b.len = .ok (.noBroadcast, a.len) := by
    simp [classifyLengths, hlen]
  unfold NumericListOp.execute
  rw [tryNew_eq_build op a.name a.dtype b.dtype a.len b.len a.sideData b.sideData
    a.rechunkValidity b.rechunkValidity .primitiveToList (.list ib) .noBroadcast a.len
    hA hC, if_neg hsc]
  show BinHelper.finish _ = _
  unfold BinHelper.finish BinHelper.finishImplDispatch BinHelper.finishImpl
    BinHelper.prepForImpl
  simp only [Series.sideData]
  rfl

theorem execute_LtP_right (op : NumericListOp) (a b : Series) (ia : DataType) (tb : DType)
    (hda : a.dtype = .list ia) (hdb : b.dtype = .prim tb)
    (hb1 : b.len = 1) (ha1 : a.len ≠ 1) (ha0 : a.len ≠ 0) :
    op.execute a b =
      .ok (ltpRightAssembled op a.name
        (op.tryGetLeafSupertype a.dtype.leafDtype b.dtype.leafDtype) false
        (computeOuterValidity .listToPrimitive .right
          a.rechunkValidity b.rechunkValidity a.len) a b) := by
  have hA : applyTypeOf a.dtype b.dtype = .ok (.listToPrimitive, .list ia) := by
    rw [hda, hdb]; rfl
  have hC : classifyLengths a.len b.len = .ok (.right, a.len) := by
    simp [classifyLengths, hb1, ha1]
  have hsc : ¬ shortCircuitNull .listToPrimitive a.len a.len b.len
      a.rechunkValidity b.rechunkValidity := by
    rintro (h0 | ⟨h1, -, -⟩ | ⟨-, hd, -⟩)
    · exact ha0 h0
    · exact ha1 h1
    · rcases hd with h | h <;> exact BinaryOpApplyType.noConfusion h
  unfold NumericListOp.execute
  rw [tryNew_eq_build op a.name a.dtype b.dtype a.len b.len a.sideData b.sideData
    a.rechunkValidity b.rechunkValidity .listToPrimitive (.list ia) .right a.len
    hA hC, if_neg hsc]
  show BinHelper.finish _ = _
  unfold BinHelper.finish BinHelper.finishImplDispatch BinHelper.finishImpl
    BinHelper.prepForImpl ltpRightAssembled
  simp only [Series.sideData]
  split <;> rfl

theorem execute_PtL_left (op : NumericListOp) (a b : Series) (ta : DType) (ib : DataType)
    (hda : a.dtype = .prim ta) (hdb : b.dtype = .list ib)
    (ha1 : a.len = 1) (hb1 : b.len ≠ 1) (hb0 : b.len ≠ 0) :
    op.execute a b =
      .ok (ltpRightAssembled op a.name
        (op.tryGetLeafSupertype a.dtype.leafDtype b.dtype.leafDtype) true
        (computeOuterValidity .primitiveToList .left
          a.rechunkValidity b.rechunkValidity b.len) b a) := by
  have hA : applyTypeOf a.dtype b.dtype = .ok (.primitiveToList, .list ib) := by
    rw [hda, hdb]; rfl
  have hC : classifyLengths a.len b.len = .ok (.left, b.len) := by
    have h1' : (1 : Nat) ≠ b.len := fun hh => hb1 hh.symm
    simp [classifyLengths, ha1, h1']
  have hsc : ¬ shortCircuitNull .primitiveToList b.len a.len b.len
      a.rechunkValidity b.rechunkValidity := by
    rintro (h0 | ⟨-, hd, -⟩ | ⟨h1, -, -⟩)
    · exact hb0 h0
    · rcases hd with h | h <;> exact BinaryOpApplyType.noConfusion h
    · exact hb1 h1
  unfold NumericListOp.execute
  rw [tryNew_eq_build op a.name a.dtype b.dtype a.len b.len a.sideData b.sideData
    a.rechunkValidity b.rechunkValidity .primitiveToList (.list ib) .left b.len
    hA hC, if_neg hsc]
  show BinHelper.finish _ = _
  unfold BinHelper.finish BinHelper.finishImplDispatch BinHelper.finishImpl
    BinHelper.prepForImpl ltpRightAssembled
  simp only [Series.sideData]
  split <;> rfl

theorem execute_LtP_left (op : NumericListOp) (a b : Series) (ia : DataType) (tb : DType)
    (hda : a.dtype = .list ia) (hdb : b.dtype = .prim tb)
    (ha1 : a.len = 1) (hb1 : b.len ≠ 1) (hb0 : b.len ≠ 0)
    (hva0 : outerNullAt0 a.rechunkValidity = false) :
    op.execute a b =
      .ok (ltpScratchAssembled op a.name
        (op.tryGetLeafSupertype a.dtype.leafDtype b.dtype.leafDtype) false
        (computeOuterValidity .listToPrimitive .left
          a.rechunkValidity b.rechunkValidity b.len) a b b.len) := by
  have hA : applyTypeOf a.dtype b.dtype = .ok (.listToPrimitive, .list ia) := by
    rw [hda, hdb]; rfl
  have hC : classifyLengths a.len b.len = .ok (.left, b.len) := by
    have h1' : (1 : Nat) ≠ b.len := fun hh => hb1 hh.symm
    simp [classifyLengths, ha1, h1']
  have hsc : ¬ shortCircuitNull .listToPrimitive b.len a.len b.len
      a.rechunkValidity b.rechunkValidity := by
    rintro (h0 | ⟨-, -, hnull⟩ | ⟨-, hd, -⟩)
    · exact hb0 h0
    · rw [hva0] at hnull; exact Bool.noConfusion hnull
    · rcases hd with h | h <;> exact BinaryOpApplyType.noConfusion h
  unfold NumericListOp.execute
  rw [tryNew_eq_build op a.name a.dtype b.dtype a.len b.len a.sideData b.sideData
    a.rechunkValidity b.rechunkValidity .listToPrimitive (.list ia) .left b.len
    hA hC, if_neg hsc]
  show BinHelper.finish _ = _
  unfold BinHelper.finish BinHelper.finishImplDispatch BinHelper.finishImpl
    BinHelper.prepForImpl ltpScratchAssembled
  simp only [Series.sideData]
  rfl

theorem execute_PtL_right (op : NumericListOp) (a b : Series) (ta : DType) (ib : DataType)
    (hda : a.dtype = .prim ta) (hdb : b.dtype = .list ib)
    (hb1 : b.len = 1) (ha1 : a.len ≠ 1) (ha0 : a.len ≠ 0)
    (hvb0 : outerNullAt0 b.rechunkValidity = false) :
    op.execute a b =
      .ok (ltpScratchAssembled op a.name
        (op.tryGetLeafSupertype a.dtype.leafDtype b.dtype.leafDtype) true
        (computeOuterValidity .primitiveToList .right
          a.rechunkValidity b.rechunkValidity a.len) b a a.len) := by
  have hA : applyTypeOf a.dtype b.dtype = .ok (.primitiveToList, .list ib) := by
    rw [hda, hdb]; rfl
  have hC : classifyLengths a.len b.len = .ok (.right, a.len) := by
    simp [classifyLengths, hb1, ha1]
  have hsc : ¬ shortCircuitNull .primitiveToList a.len a.len b.len
      a.rechunkValidity b.rechunkValidity := by
    rintro (h0 | ⟨h1, -, -⟩ | ⟨-, -, hnull⟩)
    · exact ha0 h0
    · exact ha1 h1
    · rw [hvb0] at hnull; exact Bool.noConfusion hnull
  unfold NumericListOp.execute
  rw [tryNew_eq_build op a.name a.dtype b.dtype a.len b.len a.sideData b.sideData
    a.rechunkValidity b.rechunkValidity .primitiveToList (.list ib) .right a.len
    hA hC, if_neg hsc]
  show BinHelper.finish _ = _
  unfold BinHelper.finish BinHelper.finishImplDispatch BinHelper.finishImpl
    BinHelper.prepForImpl ltpScratchAssembled
  simp only [Series.sideData]
  rfl

/-- C3: `ListToList` with broadcast `Right` (the rhs being a valid
single list row of width `w`) raises `ShapeMismatch` iff some row has
`lhs_len(i) ≠ w` with a true outer-validity bit; rows with a false bit
never trigger it, and without such a row the call succeeds. -/
theorem claim_C3 (op : NumericListOp) (a b : Series) (ta tb : DType)
    (hda : a.dtype = .list (.prim ta)) (hdb : b.dtype = .list (.prim tb))
    (hb1 : b.len = 1) (ha1 : a.len ≠ 1)
    (hrv : outerNullAt0 b.rechunkValidity = false)
    (hwa : a.WF) (_hwb : b.WF) :
    ((∃ i, i < a.len ∧
        (computeOuterValidity .listToList .right a.rechunkValidity
          b.rechunkValidity a.len).getD i true = true ∧
        lengthAt (a.offsets.headD []) i ≠ offRange (b.offsets.headD [])) ↔
      (∃ i l w, op.execute a b = .error (.shapeMismatchAt i l w))) ∧
    ((∀ i, i < a.len →
        (computeOuterValidity .listToList .right a.rechunkValidity
          b.rechunkValidity a.len).getD i true = true →
        lengthAt (a.offsets.headD []) i = offRange (b.offsets.headD [])) →
      ∃ res, op.execute a b = .ok res) := by
  have hA : applyTypeOf a.dtype b.dtype = .ok (.listToList, .list (.prim ta)) := by
    rw [hda, hdb]; rfl
  by_cases ha0 : a.len = 0
  · -- empty output: short-circuit, no error, vacuous badness
    have hC : classifyLengths a.len b.len = .ok (.right, a.len) := by
      simp [classifyLengths, hb1, ha1]
    have hex : op.execute a b =
        .ok (fullNullWithDtype a.name a.len
          (((DataType.list (.prim ta)).castLeaf
            (op.tryGetLeafSupertype a.dtype.leafDtype b.dtype.leafDtype)).innerOf)) := by
      unfold NumericListOp.execute
      rw [tryNew_eq_build op a.name a.dtype b.dtype a.len b.len a.sideData b.sideData
        a.rechunkValidity b.rechunkValidity .listToList (.list (.prim ta)) .right a.len
        hA hC,
        if_pos (show shortCircuitNull .listToList a.len a.len b.len
          a.rechunkValidity b.rechunkValidity from Or.inl ha0)]
    constructor
    · constructor
      · rintro ⟨i, hi, -, -⟩
        omega
      · rintro ⟨i, l, w, herr⟩
        rw [hex] at herr
        exact absurd herr (by simp)
    · exact fun _ => ⟨_, hex⟩
  · have hsc : ¬ shortCircuitNull .listToList a.len a.len b.len
        a.rechunkValidity b.rechunkValidity := by
      rintro (h0 | ⟨h1, -, -⟩ | ⟨-, -, hnull⟩)
      · exact ha0 h0
      · exact ha1 h1
      · rw [hrv] at hnull; exact Bool.noConfusion hnull
    have hchar := execute_LtL_right op a b ta tb hda hdb hb1 ha1 hsc
    obtain ⟨o, os, ho⟩ : ∃ o os, a.offsets = o :: os := by
      obtain ⟨hd, -, -, -⟩ := hwa
      rw [hda] at hd
      cases hoa : a.offsets with
      | nil => rw [hoa] at hd; simp [DataType.depth] at hd
      | cons o os => exact ⟨o, os, rfl⟩
    have hproxy : lenProxy (a.offsets.headD []) = a.len := by
      rw [ho]; exact WF_lenProxy_head a hwa o os ho
    have hok : (∀ i, i < a.len →
        (computeOuterValidity .listToList .right a.rechunkValidity
          b.rechunkValidity a.len).getD i true = true →
        lengthAt (a.offsets.headD []) i = offRange (b.offsets.headD [])) →
        ∃ res, op.execute a b = .ok res := by
      intro hgood
      rw [hchar]
      have hall : mismatchPosBroadcastRight (a.offsets.headD [])
          (offRange (b.offsets.headD []))
          (computeOuterValidity .listToList .right a.rechunkValidity
            b.rechunkValidity a.len) = a.len := by
        unfold mismatchPosBroadcastRight
        rw [hproxy]
        refine mismatchCursorRight_all _ _ _ _ (fun i hi => ?_)
        by_cases hbit : (computeOuterValidity .listToList .right a.rechunkValidity
            b.rechunkValidity a.len).getD i true = true
        · exact Or.inl (hgood i hi hbit)
        · exact Or.inr (by simpa using hbit)
      rw [hall]
      unfold checkMismatchPos
      rw [if_neg (by omega)]
      exact ⟨_, rfl⟩
    have hbadcase : (∃ i, i < a.len ∧
        (computeOuterValidity .listToList .right a.rechunkValidity
          b.rechunkValidity a.len).getD i true = true ∧
        lengthAt (a.offsets.headD []) i ≠ offRange (b.offsets.headD [])) →
        ∃ i l w, op.execute a b = .error (.shapeMismatchAt i l w) := by
      rintro hbad
      have hPex : ∃ i, i < a.len ∧
          (computeOuterValidity .listToList .right a.rechunkValidity
            b.rechunkValidity a.len).getD i true = true ∧
          lengthAt (a.offsets.headD []) i ≠ offRange (b.offsets.headD []) := hbad
      obtain ⟨hiP1, hiP2, hiP3⟩ := Nat.find_spec hPex
      have hmin := fun j hj => Nat.find_min hPex (m := j) hj
      have hlt : mismatchPosBroadcastRight (a.offsets.headD [])
          (offRange (b.offsets.headD []))
          (computeOuterValidity .listToList .right a.rechunkValidity
            b.rechunkValidity a.len) < a.len := by
        unfold mismatchPosBroadcastRight
        rw [hproxy]
        refine mismatchCursorRight_belowAfterBad _ _ _ (Nat.find hPex)
          hiP3 hiP2 ?_ a.len hiP1
        intro j hj
        have hnj := hmin j hj
        by_cases hbit : (computeOuterValidity .listToList .right a.rechunkValidity
            b.rechunkValidity a.len).getD j true = true
        · by_cases hwj : lengthAt (a.offsets.headD []) j = offRange (b.offsets.headD [])
          · exact Or.inl hwj
          · exact absurd ⟨by omega, hbit, hwj⟩ hnj
        · exact Or.inr (by simpa using hbit)
      rw [hchar]
      unfold checkMismatchPos
      rw [if_pos (by omega)]
      exact ⟨_, _, _, rfl⟩
    refine ⟨⟨hbadcase, ?_⟩, hok⟩
    rintro ⟨i, l, w, herr⟩
    by_contra hnone
    push_neg at hnone
    obtain ⟨res, hres⟩ := hok hnone
    rw [hres] at herr
    exact absurd herr (by simp)

theorem claim_C3_witness :
    ∃ i l w, NumericListOp.add.execute exC3a exC3b =
      .error (.shapeMismatchAt i l w) :=
  (claim_C3 .add exC3a exC3b .i64 .i64 rfl rfl rfl (by decide) rfl (by decide)
    (by decide)).1.mp ⟨1, by decide, by decide, by decide⟩

theorem claim_C8_witness :
    exR8.offsets = (normalizedListSide exH10).offsets ∧
    exR8.validities = some exH10.outerValidity ::
      (normalizedListSide exH10).validities.drop 1 ∧
    exR8.offsets.length = max exListLen2.dtype.depth exB10.dtype.depth ∧
    (exH10.broadcast = .noBroadcast →
      exR8.offsets = (if exH10.opApplyType = .primitiveToList then exB10
        else exListLen2).offsets ∧
      exR8.validities.drop 1 = (if exH10.opApplyType = .primitiveToList then exB10
        else exListLen2).validities.drop 1) :=
  claim_C8 .add exListLen2 exB10 exH10 exR8 (by decide) (by decide) (by decide) (by decide)

theorem ltlRightAssembled_denote_irrel (op : NumericListOp)
    (hop : op = .add ∨ op = .mul) (nm1 nm2 : String) (t : DType) (sw1 sw2 : Bool)
    (outer : Bitmap) (L R : Series) :
    (ltlRightAssembled op nm1 t sw1 outer L R).denote =
      (ltlRightAssembled op nm2 t sw2 outer L R).denote := by
  refine denote_of_fields _ _ rfl rfl ?_
  simp only [ltlRightAssembled, prep_addmul op hop, ltlBroadcastRightOut_sw op hop]

theorem ltpNoBAssembled_denote_irrel (op : NumericListOp)
    (hop : op = .add ∨ op = .mul) (nm1 nm2 : String) (t : DType) (sw1 sw2 : Bool)
    (outer : Bitmap) (L R : Series) :
    (ltpNoBAssembled op nm1 t sw1 outer L R).denote =
      (ltpNoBAssembled op nm2 t sw2 outer L R).denote := by
  refine denote_of_fields _ _ rfl rfl ?_
  simp only [ltpNoBAssembled, prep_addmul op hop, ltpNoBroadcastOut_sw op hop]

theorem ltpRightAssembled_denote_irrel (op : NumericListOp)
    (hop : op = .add ∨ op = .mul) (nm1 nm2 : String) (t : DType) (sw1 sw2 : Bool)
    (outer : Bitmap) (L R : Series) :
    (ltpRightAssembled op nm1 t sw1 outer L R).denote =
      (ltpRightAssembled op nm2 t sw2 outer L R).denote := by
  unfold ltpRightAssembled
  split
  · exact denote_of_fields _ _ rfl rfl rfl
  · refine denote_of_fields _ _ rfl rfl ?_
    show op.applyArrayToScalar t L.leaf (R.leaf.getV 0) sw1 = _
    rw [applyArrayToScalar_sw op hop t _ _ sw1, applyArrayToScalar_sw op hop t _ _ sw2]

theorem ltpScratchAssembled_denote_irrel (op : NumericListOp)
    (hop : op = .add ∨ op = .mul) (nm1 nm2 : String) (t : DType) (sw1 sw2 : Bool)
    (outer : Bitmap) (L P : Series) (olen : Nat) :
    (ltpScratchAssembled op nm1 t sw1 outer L P olen).denote =
      (ltpScratchAssembled op nm2 t sw2 outer L P olen).denote := by
  refine denote_of_fields _ _ rfl rfl ?_
  simp only [ltpScratchAssembled, prep_addmul op hop, ltpNoBroadcastInPlace_sw op hop]

theorem list_length_one {α : Type} (l : List α) (h : l.length = 1) : ∃ x, l = [x] := by
  cases l with
  | nil => simp at h
  | cons x xs =>
    cases xs with
    | nil => exact ⟨x, rfl⟩
    | cons y ys => simp at h

/-- The well-formedness facts of a depth-1 list column. -/
theorem WF_list1 (s : Series) (t : DType) (hd : s.dtype = .list (.prim t)) (hs : s.WF) :
    ∃ o, s.offsets = [o] ∧ o.length = s.len + 1 ∧ offsMono o ∧
      offLast o ≤ s.leaf.size ∧ s.validities.length = 1 ∧
      bitmapLenOk s.leaf.validity s.leaf.size := by
  obtain ⟨h1, h2, h3, h4⟩ := hs
  rw [hd] at h1
  obtain ⟨o, ho⟩ := list_length_one s.offsets (by simpa [DataType.depth] using h1)
  rw [ho] at h4
  exact ⟨o, ho, h4.1, h4.2.1, h4.2.2.1, by rw [h2, ho]; rfl, h3⟩

theorem mismatchCursorNB_le (offL offR : Offs) (outer : Bitmap) (n : Nat) :
    mismatchCursorNB offL offR outer n ≤ n := by
  induction n with
  | zero => exact Nat.le_refl _
  | succ m ih =>
    unfold mismatchCursorNB at ih ⊢
    rw [List.range_succ, List.foldl_append, List.foldl_cons, List.foldl_nil]
    split
    · omega
    · omega

theorem mismatchCursorNB_comm (offL offR : Offs) (outer : Bitmap) (n : Nat) :
    mismatchCursorNB offR offL outer n = mismatchCursorNB offL offR outer n := by
  unfold mismatchCursorNB
  congr 1
  funext pos i
  have heq : (lengthAt offR i = lengthAt offL i) = (lengthAt offL i = lengthAt offR i) :=
    propext ⟨Eq.symm, Eq.symm⟩
  simp only [heq]

theorem mismatchCursorNB_complete (offL offR : Offs) (outer : Bitmap) (n : Nat)
    (h : mismatchCursorNB offL offR outer n = n) :
    ∀ i, i < n → (lengthAt offL i = lengthAt offR i ∨ outer.getD i true = false) := by
  by_contra hcon
  push_neg at hcon
  obtain ⟨i, hi, hbad⟩ := hcon
  have hex : ∃ i, i < n ∧
      ¬(lengthAt offL i = lengthAt offR i ∨ outer.getD i true = false) := by
    refine ⟨i, hi, ?_⟩
    rintro (h1 | h2)
    · exact hbad.1 h1
    · exact hbad.2 h2
  classical
  have hi0 := Nat.find_spec hex
  have hcur : mismatchCursorNB offL offR outer n = Nat.find hex := by
    refine mismatchCursorNB_firstBad offL offR outer (Nat.find hex) hi0.2 ?_ n hi0.1
    intro j hj
    by_contra hjb
    exact Nat.find_min hex hj ⟨Nat.lt_trans hj hi0.1, hjb⟩
  omega

theorem sc_LtL_swap (olen lA lB : Nat) (vA vB : Option Bitmap) :
    shortCircuitNull .listToList olen lB lA vB vA ↔
      shortCircuitNull .listToList olen lA lB vA vB := by
  unfold shortCircuitNull
  constructor
  · rintro (h | ⟨h1, h2, h3⟩ | ⟨h1, h2, h3⟩)
    · exact Or.inl h
    · exact Or.inr (Or.inr ⟨h1, Or.inl rfl, h3⟩)
    · exact Or.inr (Or.inl ⟨h1, Or.inl rfl, h3⟩)
  · rintro (h | ⟨h1, h2, h3⟩ | ⟨h1, h2, h3⟩)
    · exact Or.inl h
    · exact Or.inr (Or.inr ⟨h1, Or.inl rfl, h3⟩)
    · exact Or.inr (Or.inl ⟨h1, Or.inl rfl, h3⟩)

theorem sc_LtP_swap (olen lA lB : Nat) (vA vB : Option Bitmap) :
    shortCircuitNull .primitiveToList olen lB lA vB vA ↔
      shortCircuitNull .listToPrimitive olen lA lB vA vB := by
  unfold shortCircuitNull
  constructor
  · rintro (h | ⟨h1, h2, h3⟩ | ⟨h1, h2, h3⟩)
    · exact Or.inl h
    · rcases h2 with h2 | h2 <;> exact BinaryOpApplyType.noConfusion h2
    · exact Or.inr (Or.inl ⟨h1, Or.inr rfl, h3⟩)
  · rintro (h | ⟨h1, h2, h3⟩ | ⟨h1, h2, h3⟩)
    · exact Or.inl h
    · exact Or.inr (Or.inr ⟨h1, Or.inr rfl, h3⟩)
    · rcases h2 with h2 | h2 <;> exact BinaryOpApplyType.noConfusion h2

theorem isValidAt_eq_bitGetOpt (a : PrimArray) (i : Nat) :
    a.isValidAt i = bitGetOpt a.validity i := by
  cases hv : a.validity <;> simp [PrimArray.isValidAt, bitGetOpt, hv]

theorem denote_depth1 (r : ListResult) (o : Offs) (v : Option Bitmap)
    (ho : r.offsets = [o]) (hv : r.validities = [v]) :
    r.denote = (List.range (lenProxy o)).map (fun j =>
      if bitGetOpt v j then
        NVal.lst (some (denoteLevels [] r.leaf (offGet o j) (offGet o (j + 1))))
      else NVal.lst none) := by
  unfold ListResult.denote ListResult.len
  rw [ho, hv]
  show denoteLevels [(o, v)] r.leaf 0 (lenProxy o) = _
  rw [denoteLevels_cons]
  simp only [Nat.sub_zero, Nat.zero_add]

theorem denote_ltlNoB_comm (op : NumericListOp) (hop : op = .add ∨ op = .mul)
    (a b : Series) (ta tb : DType)
    (hda : a.dtype = .list (.prim ta)) (hdb : b.dtype = .list (.prim tb))
    (hwa : a.WF) (hwb : b.WF) (hlen : a.len = b.len)
    (hok : ∀ i, i < a.len →
      (lengthAt (a.offsets.headD []) i = lengthAt (b.offsets.headD []) i ∨
        (computeOuterValidity .listToList .noBroadcast
          a.rechunkValidity b.rechunkValidity a.len).getD i true = false)) :
    (ltlNoBResult op a b).denote = (ltlNoBResult op b a).denote := by
  obtain ⟨oA, hoA, hlenA, hmA, hlastA, hvA1, hleafA⟩ := WF_list1 a ta hda hwa
  obtain ⟨oB, hoB, hlenB, hmB, hlastB, hvB1, hleafB⟩ := WF_list1 b tb hdb hwb
  have hnA : lenProxy oA = a.len := by simp [lenProxy, hlenA]
  have hnB : lenProxy oB = a.len := by simp [lenProxy, hlenB, hlen]
  have houter : computeOuterValidity .listToList .noBroadcast
      b.rechunkValidity a.rechunkValidity b.len =
      computeOuterValidity .listToList .noBroadcast
        a.rechunkValidity b.rechunkValidity a.len := by
    rw [computeOuter_LtL_noB_comm, ← hlen]
  have hv1 : (ltlNoBResult op a b).validities =
      [some (computeOuterValidity .listToList .noBroadcast
        a.rechunkValidity b.rechunkValidity a.len)] := by
    show some (computeOuterValidity .listToList .noBroadcast
        a.rechunkValidity b.rechunkValidity a.len) :: a.validities.drop 1 = _
    rw [List.drop_eq_nil_of_le (le_of_eq hvA1)]
  have hv2 : (ltlNoBResult op b a).validities =
      [some (computeOuterValidity .listToList .noBroadcast
        a.rechunkValidity b.rechunkValidity a.len)] := by
    show some (computeOuterValidity .listToList .noBroadcast
        b.rechunkValidity a.rechunkValidity b.len) :: b.validities.drop 1 = _
    rw [List.drop_eq_nil_of_le (le_of_eq hvB1), houter]
  have hok' : ∀ i, i < a.len → (lengthAt oA i = lengthAt oB i ∨
      (computeOuterValidity .listToList .noBroadcast
        a.rechunkValidity b.rechunkValidity a.len).getD i true = false) := by
    intro i hi
    have h := hok i hi
    rw [hoA, hoB] at h
    simpa using h
  have hleaf1 : (ltlNoBResult op a b).leaf =
      ⟨ltlNoBroadcastOut op
          (op.tryGetLeafSupertype a.dtype.leafDtype b.dtype.leafDtype)
          false oA oB a.leaf b.leaf,
        combineValiditiesListToListNoBroadcast oA oB
          a.leaf.validity b.leaf.validity a.leaf.size⟩ := by
    simp only [ltlNoBResult, hoA, hoB, List.headD_cons, prep_addmul op hop]
  have hleaf2 : (ltlNoBResult op b a).leaf =
      ⟨ltlNoBroadcastOut op
          (op.tryGetLeafSupertype a.dtype.leafDtype b.dtype.leafDtype)
          false oB oA b.leaf a.leaf,
        combineValiditiesListToListNoBroadcast oB oA
          b.leaf.validity a.leaf.validity b.leaf.size⟩ := by
    simp only [ltlNoBResult, hoA, hoB, List.headD_cons, prep_addmul op hop,
      tryGetLeafSupertype_comm op b.dtype.leafDtype a.dtype.leafDtype]
  rw [denote_depth1 (ltlNoBResult op a b) oA _ hoA hv1,
      denote_depth1 (ltlNoBResult op b a) oB _ hoB hv2, hnA, hnB]
  refine List.map_congr_left (fun j hj => ?_)
  have hjn : j < a.len := List.mem_range.mp hj
  by_cases hbit : (computeOuterValidity .listToList .noBroadcast
      a.rechunkValidity b.rechunkValidity a.len).getD j true = true
  case neg =>
    rw [Bool.not_eq_true] at hbit
    simp only [bitGetOpt, hbit]
    rfl
  case pos =>
    have hw : lengthAt oA j = lengthAt oB j := by
      rcases hok' j hjn with h | h
      · exact h
      · rw [h] at hbit; exact absurd hbit (by simp)
    simp only [bitGetOpt, hbit, if_true]
    refine congrArg (fun x => NVal.lst (some x)) ?_
    rw [hleaf1, hleaf2, denoteLevels_nil, denoteLevels_nil]
    have hlA : offGet oA (j + 1) - offGet oA j = lengthAt oA j := rfl
    have hlB : offGet oB (j + 1) - offGet oB j = lengthAt oB j := rfl
    rw [hlA, hlB, ← hw]
    refine List.map_congr_left (fun k hk => ?_)
    have hkA : k < lengthAt oA j := List.mem_range.mp hk
    have hkB : k < lengthAt oB j := hw ▸ hkA
    have hkmin : k < min (lengthAt oA j) (lengthAt oB j) := by
      rw [hw, Nat.min_self]; exact hkB
    have hlastA' : offGet oA (lenProxy oA) = offLast oA := rfl
    have hlastB' : offGet oB (lenProxy oB) = offLast oB := rfl
    have hmonoA : offGet oA (j + 1) ≤ offGet oA (lenProxy oA) :=
      offsMono_le oA hmA (j + 1) (lenProxy oA) (by omega) (Nat.le_refl _)
    have hmonoB : offGet oB (j + 1) ≤ offGet oB (lenProxy oB) :=
      offsMono_le oB hmB (j + 1) (lenProxy oB) (by omega) (Nat.le_refl _)
    have hrowA : lengthAt oA j = offGet oA (j + 1) - offGet oA j := rfl
    have hrowB : lengthAt oB j = offGet oB (j + 1) - offGet oB j := rfl
    have hbA : offGet oA j + k < a.leaf.size := by omega
    have hbB : offGet oB j + k < b.leaf.size := by omega
    have hbit1 : bitGetOpt (combineValiditiesListToListNoBroadcast oA oB
        a.leaf.validity b.leaf.validity a.leaf.size) (offGet oA j + k) =
        (bitGetOpt a.leaf.validity (offGet oA j + k) &&
         bitGetOpt b.leaf.validity (offGet oB j + k)) :=
      combineLtLNoB_getD oA oB _ _ _ hmA j k (hnA ▸ hjn) hkmin hbA hleafA
    have hbit2 : bitGetOpt (combineValiditiesListToListNoBroadcast oB oA
        b.leaf.validity a.leaf.validity b.leaf.size) (offGet oB j + k) =
        (bitGetOpt b.leaf.validity (offGet oB j + k) &&
         bitGetOpt a.leaf.validity (offGet oA j + k)) := by
      refine combineLtLNoB_getD oB oA _ _ _ hmB j k (hnB ▸ hjn) ?_ hbB hleafB
      rw [← hw, Nat.min_self]; exact hkA
    have hAbit : PrimArray.isValidAt
        ⟨ltlNoBroadcastOut op
            (op.tryGetLeafSupertype a.dtype.leafDtype b.dtype.leafDtype)
            false oA oB a.leaf b.leaf,
          combineValiditiesListToListNoBroadcast oA oB
            a.leaf.validity b.leaf.validity a.leaf.size⟩ (offGet oA j + k) =
        PrimArray.isValidAt
        ⟨ltlNoBroadcastOut op
            (op.tryGetLeafSupertype a.dtype.leafDtype b.dtype.leafDtype)
            false oB oA b.leaf a.leaf,
          combineValiditiesListToListNoBroadcast oB oA
            b.leaf.validity a.leaf.validity b.leaf.size⟩ (offGet oB j + k) := by
      rw [isValidAt_eq_bitGetOpt, isValidAt_eq_bitGetOpt]
      show bitGetOpt (combineValiditiesListToListNoBroadcast oA oB
          a.leaf.validity b.leaf.validity a.leaf.size) (offGet oA j + k) =
        bitGetOpt (combineValiditiesListToListNoBroadcast oB oA
          b.leaf.validity a.leaf.validity b.leaf.size) (offGet oB j + k)
      rw [hbit1, hbit2, Bool.and_comm]
    have hAval : PrimArray.getV
        ⟨ltlNoBroadcastOut op
            (op.tryGetLeafSupertype a.dtype.leafDtype b.dtype.leafDtype)
            false oA oB a.leaf b.leaf,
          combineValiditiesListToListNoBroadcast oA oB
            a.leaf.validity b.leaf.validity a.leaf.size⟩ (offGet oA j + k) =
        PrimArray.getV
        ⟨ltlNoBroadcastOut op
            (op.tryGetLeafSupertype a.dtype.leafDtype b.dtype.leafDtype)
            false oB oA b.leaf a.leaf,
          combineValiditiesListToListNoBroadcast oB oA
            b.leaf.validity a.leaf.validity b.leaf.size⟩ (offGet oB j + k) := by
      show (ltlNoBroadcastOut op
          (op.tryGetLeafSupertype a.dtype.leafDtype b.dtype.leafDtype)
          false oA oB a.leaf b.leaf).getD (offGet oA j + k) 0 =
        (ltlNoBroadcastOut op
          (op.tryGetLeafSupertype a.dtype.leafDtype b.dtype.leafDtype)
          false oB oA b.leaf a.leaf).getD (offGet oB j + k) 0
      rw [ltlNoBroadcastOut_getD op _ false oA oB a.leaf b.leaf j k hmA
            (hnA ▸ hjn) hkmin hbA,
          ltlNoBroadcastOut_getD op _ false oB oA b.leaf a.leaf j k hmB
            (hnB ▸ hjn) (by rw [← hw, Nat.min_self]; exact hkA) hbB]
      exact applyBin_addmul_comm op hop _ _ _
    rw [hAbit, hAval]

theorem execDenoteEq_LtL_eq (op : NumericListOp) (hop : op = .add ∨ op = .mul)
    (a b : Series) (ta tb : DType)
    (hda : a.dtype = .list (.prim ta)) (hdb : b.dtype = .list (.prim tb))
    (hwa : a.WF) (hwb : b.WF) (hlen : a.len = b.len) :
    execDenoteEq op a b := by
  have hA1 : applyTypeOf a.dtype b.dtype = .ok (.listToList, .list (.prim ta)) := by
    rw [hda, hdb]; rfl
  have hA2 : applyTypeOf b.dtype a.dtype = .ok (.listToList, .list (.prim tb)) := by
    rw [hda, hdb]; rfl
  by_cases hsc : shortCircuitNull .listToList a.len a.len b.len
      a.rechunkValidity b.rechunkValidity
  · have hsc' : shortCircuitNull .listToList b.len b.len a.len
        b.rechunkValidity a.rechunkValidity := by
      unfold shortCircuitNull at hsc ⊢
      rcases hsc with h | ⟨h1, h2, h3⟩ | ⟨h1, h2, h3⟩
      · exact Or.inl (by omega)
      · exact Or.inr (Or.inr ⟨h1, Or.inl rfl, h3⟩)
      · exact Or.inr (Or.inl ⟨h1, Or.inl rfl, h3⟩)
    have hC1 : classifyLengths a.len b.len = .ok (.noBroadcast, a.len) := by
      simp [classifyLengths, hlen]
    have hC2 : classifyLengths b.len a.len = .ok (.noBroadcast, b.len) := by
      simp [classifyLengths, hlen]
    refine execDenoteEq_of_ok op a b _ _
      (execute_sc_ok op a b .listToList (.list (.prim ta)) .noBroadcast a.len hA1 hC1 hsc)
      (execute_sc_ok op b a .listToList (.list (.prim tb)) .noBroadcast b.len hA2 hC2 hsc')
      ?_
    rw [denote_fullNull, denote_fullNull, hlen]
  · have hsc2 : ¬ shortCircuitNull .listToList b.len b.len a.len
        b.rechunkValidity a.rechunkValidity := by
      intro hcon
      apply hsc
      unfold shortCircuitNull at hcon ⊢
      rcases hcon with h | ⟨h1, h2, h3⟩ | ⟨h1, h2, h3⟩
      · exact Or.inl (by omega)
      · exact Or.inr (Or.inr ⟨h1, Or.inl rfl, h3⟩)
      · exact Or.inr (Or.inl ⟨h1, Or.inl rfl, h3⟩)
    obtain ⟨oA, hoA, hlenA, -, -, -, -⟩ := WF_list1 a ta hda hwa
    obtain ⟨oB, hoB, hlenB, -, -, -, -⟩ := WF_list1 b tb hdb hwb
    have hpp : lenProxy oB = lenProxy oA := by
      simp [lenProxy, hlenA, hlenB, hlen]
    have hnA : lenProxy oA = a.len := by simp [lenProxy, hlenA]
    have houter : computeOuterValidity .listToList .noBroadcast
        b.rechunkValidity a.rechunkValidity b.len =
        computeOuterValidity .listToList .noBroadcast
          a.rechunkValidity b.rechunkValidity a.len := by
      rw [computeOuter_LtL_noB_comm, ← hlen]
    have hcur : mismatchPosNoBroadcast oB oA
        (computeOuterValidity .listToList .noBroadcast
          a.rechunkValidity b.rechunkValidity a.len) =
        mismatchPosNoBroadcast oA oB
          (computeOuterValidity .listToList .noBroadcast
            a.rechunkValidity b.rechunkValidity a.len) := by
      unfold mismatchPosNoBroadcast
      rw [hpp, mismatchCursorNB_comm]
    have hex1 : op.execute a b =
        (match checkMismatchPos
            (mismatchPosNoBroadcast oA oB
              (computeOuterValidity .listToList .noBroadcast
                a.rechunkValidity b.rechunkValidity a.len)) oA oB with
         | .error e => .error e
         | .ok _ => .ok (ltlNoBResult op a b)) := by
      rw [execute_LtL_noB op a b ta tb hda hdb hlen hsc, hoA, hoB]
      rfl
    have hex2 : op.execute b a =
        (match checkMismatchPos
            (mismatchPosNoBroadcast oA oB
              (computeOuterValidity .listToList .noBroadcast
                a.rechunkValidity b.rechunkValidity a.len)) oB oA with
         | .error e => .error e
         | .ok _ => .ok (ltlNoBResult op b a)) := by
      rw [execute_LtL_noB op b a tb ta hdb hda hlen.symm hsc2, hoA, hoB]
      simp only [List.headD_cons, houter, hcur]
    by_cases herr : mismatchPosNoBroadcast oA oB
        (computeOuterValidity .listToList .noBroadcast
          a.rechunkValidity b.rechunkValidity a.len) < lenProxy oA
    · have hchk1 : checkMismatchPos
          (mismatchPosNoBroadcast oA oB
            (computeOuterValidity .listToList .noBroadcast
              a.rechunkValidity b.rechunkValidity a.len)) oA oB =
          .error (.shapeMismatchAt
            (mismatchPosNoBroadcast oA oB
              (computeOuterValidity .listToList .noBroadcast
                a.rechunkValidity b.rechunkValidity a.len))
            (lengthAt oA (mismatchPosNoBroadcast oA oB
              (computeOuterValidity .listToList .noBroadcast
                a.rechunkValidity b.rechunkValidity a.len)))
            (lengthAt oB (if lenProxy oB = 1 then 0 else
              mismatchPosNoBroadcast oA oB
                (computeOuterValidity .listToList .noBroadcast
                  a.rechunkValidity b.rechunkValidity a.len)))) := by
        unfold checkMismatchPos
        rw [if_pos herr]
      have hchk2 : checkMismatchPos
          (mismatchPosNoBroadcast oA oB
            (computeOuterValidity .listToList .noBroadcast
              a.rechunkValidity b.rechunkValidity a.len)) oB oA =
          .error (.shapeMismatchAt
            (mismatchPosNoBroadcast oA oB
              (computeOuterValidity .listToList .noBroadcast
                a.rechunkValidity b.rechunkValidity a.len))
            (lengthAt oB (mismatchPosNoBroadcast oA oB
              (computeOuterValidity .listToList .noBroadcast
                a.rechunkValidity b.rechunkValidity a.len)))
            (lengthAt oA (if lenProxy oA = 1 then 0 else
              mismatchPosNoBroadcast oA oB
                (computeOuterValidity .listToList .noBroadcast
                  a.rechunkValidity b.rechunkValidity a.len)))) := by
        unfold checkMismatchPos
        rw [if_pos (by omega)]
      unfold execDenoteEq
      rw [hex1, hex2, hchk1, hchk2]
      trivial
    · have hceq : mismatchCursorNB oA oB
          (computeOuterValidity .listToList .noBroadcast
            a.rechunkValidity b.rechunkValidity a.len) (lenProxy oA) = lenProxy oA := by
        have hle := mismatchCursorNB_le oA oB
          (computeOuterValidity .listToList .noBroadcast
            a.rechunkValidity b.rechunkValidity a.len) (lenProxy oA)
        unfold mismatchPosNoBroadcast at herr
        omega
      have hchk1 : checkMismatchPos
          (mismatchPosNoBroadcast oA oB
            (computeOuterValidity .listToList .noBroadcast
              a.rechunkValidity b.rechunkValidity a.len)) oA oB = .ok () := by
        unfold checkMismatchPos
        rw [if_neg herr]
      have hchk2 : checkMismatchPos
          (mismatchPosNoBroadcast oA oB
            (computeOuterValidity .listToList .noBroadcast
              a.rechunkValidity b.rechunkValidity a.len)) oB oA = .ok () := by
        unfold checkMismatchPos
        rw [if_neg (by omega)]
      unfold execDenoteEq
      rw [hex1, hex2, hchk1, hchk2]
      refine denote_ltlNoB_comm op hop a b ta tb hda hdb hwa hwb hlen ?_
      intro i hi
      rw [hoA, hoB]
      simp only [List.headD_cons]
      exact mismatchCursorNB_complete oA oB _ _ hceq i (by omega)

theorem execDenoteEq_LtL_unitLeft (op : NumericListOp) (hop : op = .add ∨ op = .mul)
    (a b : Series) (ta tb : DType)
    (hda : a.dtype = .list (.prim ta)) (hdb : b.dtype = .list (.prim tb))
    (ha1 : a.len = 1) (hb1 : b.len ≠ 1) :
    execDenoteEq op a b := by
  have hA1 : applyTypeOf a.dtype b.dtype = .ok (.listToList, .list (.prim ta)) := by
    rw [hda, hdb]; rfl
  have hA2 : applyTypeOf b.dtype a.dtype = .ok (.listToList, .list (.prim tb)) := by
    rw [hda, hdb]; rfl
  have hC1 : classifyLengths a.len b.len = .ok (.left, b.len) := by
    have h1' : (1 : Nat) ≠ b.len := fun hh => hb1 hh.symm
    simp [classifyLengths, ha1, h1']
  have hC2 : classifyLengths b.len a.len = .ok (.right, b.len) := by
    simp [classifyLengths, ha1, hb1]
  by_cases hsc : shortCircuitNull .listToList b.len a.len b.len
      a.rechunkValidity b.rechunkValidity
  · have hsc' : shortCircuitNull .listToList b.len b.len a.len
        b.rechunkValidity a.rechunkValidity := by
      unfold shortCircuitNull at hsc ⊢
      rcases hsc with h | ⟨h1, h2, h3⟩ | ⟨h1, h2, h3⟩
      · exact Or.inl h
      · exact Or.inr (Or.inr ⟨h1, Or.inl rfl, h3⟩)
      · exact Or.inr (Or.inl ⟨h1, Or.inl rfl, h3⟩)
    refine execDenoteEq_of_ok op a b _ _
      (execute_sc_ok op a b .listToList (.list (.prim ta)) .left b.len hA1 hC1 hsc)
      (execute_sc_ok op b a .listToList (.list (.prim tb)) .right b.len hA2 hC2 hsc')
      ?_
    rw [denote_fullNull, denote_fullNull]
  · have hsc2 : ¬ shortCircuitNull .listToList b.len b.len a.len
        b.rechunkValidity a.rechunkValidity := by
      intro hcon
      apply hsc
      unfold shortCircuitNull at hcon ⊢
      rcases hcon with h | ⟨h1, h2, h3⟩ | ⟨h1, h2, h3⟩
      · exact Or.inl h
      · exact Or.inr (Or.inr ⟨h1, Or.inl rfl, h3⟩)
      · exact Or.inr (Or.inl ⟨h1, Or.inl rfl, h3⟩)
    have hex1 := execute_LtL_left op a b ta tb hda hdb ha1 hb1 hsc
    have hex2 := execute_LtL_right op b a tb ta hdb hda ha1 hb1 hsc2
    have houter : computeOuterValidity .listToList .right
        b.rechunkValidity a.rechunkValidity b.len =
        computeOuterValidity .listToList .left
          a.rechunkValidity b.rechunkValidity b.len := rfl
    have ht : op.tryGetLeafSupertype b.dtype.leafDtype a.dtype.leafDtype =
        op.tryGetLeafSupertype a.dtype.leafDtype b.dtype.leafDtype :=
      tryGetLeafSupertype_comm op _ _
    rw [houter, ht] at hex2
    cases hchk : checkMismatchPos
        (mismatchPosBroadcastRight (b.offsets.headD [])
          (offRange (a.offsets.headD []))
          (computeOuterValidity .listToList .left
            a.rechunkValidity b.rechunkValidity b.len))
        (b.offsets.headD []) (a.offsets.headD []) with
    | error e =>
      refine execDenoteEq_of_err op a b e e ?_ ?_
      · rw [hex1, hchk]
      · rw [hex2, hchk]
    | ok u =>
      cases u
      have h1 : op.execute a b = .ok (ltlRightAssembled op a.name
          (op.tryGetLeafSupertype a.dtype.leafDtype b.dtype.leafDtype) true
          (computeOuterValidity .listToList .left
            a.rechunkValidity b.rechunkValidity b.len) b a) := by
        rw [hex1, hchk]
      have h2 : op.execute b a = .ok (ltlRightAssembled op b.name
          (op.tryGetLeafSupertype a.dtype.leafDtype b.dtype.leafDtype) false
          (computeOuterValidity .listToList .left
            a.rechunkValidity b.rechunkValidity b.len) b a) := by
        rw [hex2, hchk]
      exact execDenoteEq_of_ok op a b _ _ h1 h2
        (ltlRightAssembled_denote_irrel op hop a.name b.name _ true false _ b a)

theorem execDenoteEq_LtP_eq (op : NumericListOp) (hop : op = .add ∨ op = .mul)
    (a b : Series) (ia : DataType) (tb : DType)
    (hda : a.dtype = .list ia) (hdb : b.dtype = .prim tb)
    (hlen : a.len = b.len) :
    execDenoteEq op a b := by
  have hA1 : applyTypeOf a.dtype b.dtype = .ok (.listToPrimitive, .list ia) := by
    rw [hda, hdb]; rfl
  have hA2 : applyTypeOf b.dtype a.dtype = .ok (.primitiveToList, .list ia) := by
    rw [hda, hdb]; rfl
  have hC1 : classifyLengths a.len b.len = .ok (.noBroadcast, a.len) := by
    simp [classifyLengths, hlen]
  have hC2 : classifyLengths b.len a.len = .ok (.noBroadcast, b.len) := by
    simp [classifyLengths, hlen]
  by_cases hsc : shortCircuitNull .listToPrimitive a.len a.len b.len
      a.rechunkValidity b.rechunkValidity
  · have hsc' : shortCircuitNull .primitiveToList b.len b.len a.len
        b.rechunkValidity a.rechunkValidity := by
      unfold shortCircuitNull at hsc ⊢
      rcases hsc with h | ⟨h1, h2, h3⟩ | ⟨h1, h2, h3⟩
      · exact Or.inl (by omega)
      · exact Or.inr (Or.inr ⟨h1, Or.inr rfl, h3⟩)
      · rcases h2 with h2 | h2 <;> exact BinaryOpApplyType.noConfusion h2
    refine execDenoteEq_of_ok op a b _ _
      (execute_sc_ok op a b .listToPrimitive (.list ia) .noBroadcast a.len
        hA1 hC1 hsc)
      (execute_sc_ok op b a .primitiveToList (.list ia) .noBroadcast b.len
        hA2 hC2 hsc')
      ?_
    rw [denote_fullNull, denote_fullNull, hlen]
  · have hsc2 : ¬ shortCircuitNull .primitiveToList b.len b.len a.len
        b.rechunkValidity a.rechunkValidity := by
      intro hcon
      apply hsc
      unfold shortCircuitNull at hcon ⊢
      rcases hcon with h | ⟨h1, h2, h3⟩ | ⟨h1, h2, h3⟩
      · exact Or.inl (by omega)
      · rcases h2 with h2 | h2 <;> exact BinaryOpApplyType.noConfusion h2
      · exact Or.inr (Or.inl ⟨h1, Or.inr rfl, h3⟩)
    have hex1 := execute_LtP_noB op a b ia tb hda hdb hlen hsc
    have hex2 := execute_PtL_noB op b a tb ia hdb hda hlen.symm hsc2
    have houter : computeOuterValidity .primitiveToList .noBroadcast
        b.rechunkValidity a.rechunkValidity b.len =
        computeOuterValidity .listToPrimitive .noBroadcast
          a.rechunkValidity b.rechunkValidity a.len := by
      rw [hlen]; rfl
    have ht : op.tryGetLeafSupertype b.dtype.leafDtype a.dtype.leafDtype =
        op.tryGetLeafSupertype a.dtype.leafDtype b.dtype.leafDtype :=
      tryGetLeafSupertype_comm op _ _
    rw [houter, ht] at hex2
    exact execDenoteEq_of_ok op a b _ _ hex1 hex2
      (ltpNoBAssembled_denote_irrel op hop a.name b.name _ false true _ a b)

theorem execDenoteEq_LtP_unitList (op : NumericListOp) (hop : op = .add ∨ op = .mul)
    (a b : Series) (ia : DataType) (tb : DType)
    (hda : a.dtype = .list ia) (hdb : b.dtype = .prim tb)
    (ha1 : a.len = 1) (hb1 : b.len ≠ 1) :
    execDenoteEq op a b := by
  have hA1 : applyTypeOf a.dtype b.dtype = .ok (.listToPrimitive, .list ia) := by
    rw [hda, hdb]; rfl
  have hA2 : applyTypeOf b.dtype a.dtype = .ok (.primitiveToList, .list ia) := by
    rw [hda, hdb]; rfl
  have hC1 : classifyLengths a.len b.len = .ok (.left, b.len) := by
    have h1' : (1 : Nat) ≠ b.len := fun hh => hb1 hh.symm
    simp [classifyLengths, ha1, h1']
  have hC2 : classifyLengths b.len a.len = .ok (.right, b.len) := by
    simp [classifyLengths, ha1, hb1]
  by_cases hsc : shortCircuitNull .listToPrimitive b.len a.len b.len
      a.rechunkValidity b.rechunkValidity
  · have hsc' : shortCircuitNull .primitiveToList b.len b.len a.len
        b.rechunkValidity a.rechunkValidity := by
      unfold shortCircuitNull at hsc ⊢
      rcases hsc with h | ⟨h1, h2, h3⟩ | ⟨h1, h2, h3⟩
      · exact Or.inl h
      · exact Or.inr (Or.inr ⟨h1, Or.inr rfl, h3⟩)
      · rcases h2 with h2 | h2 <;> exact BinaryOpApplyType.noConfusion h2
    refine execDenoteEq_of_ok op a b _ _
      (execute_sc_ok op a b .listToPrimitive (.list ia) .left b.len
        hA1 hC1 hsc)
      (execute_sc_ok op b a .primitiveToList (.list ia) .right b.len
        hA2 hC2 hsc')
      ?_
    rw [denote_fullNull, denote_fullNull]
  · have hb0 : b.len ≠ 0 := by
      intro h0
      exact hsc (Or.inl h0)
    have hva0 : outerNullAt0 a.rechunkValidity = false := by
      cases h : outerNullAt0 a.rechunkValidity
      · rfl
      · exact (hsc (show shortCircuitNull .listToPrimitive b.len a.len b.len
          a.rechunkValidity b.rechunkValidity from
          Or.inr (Or.inl ⟨ha1, Or.inr rfl, h⟩))).elim
    have hex1 := execute_LtP_left op a b ia tb hda hdb ha1 hb1 hb0 hva0
    have hex2 := execute_PtL_right op b a tb ia hdb hda ha1 hb1 hb0 hva0
    have houter : computeOuterValidity .primitiveToList .right
        b.rechunkValidity a.rechunkValidity b.len =
        computeOuterValidity .listToPrimitive .left
          a.rechunkValidity b.rechunkValidity b.len := rfl
    have ht : op.tryGetLeafSupertype b.dtype.leafDtype a.dtype.leafDtype =
        op.tryGetLeafSupertype a.dtype.leafDtype b.dtype.leafDtype :=
      tryGetLeafSupertype_comm op _ _
    rw [houter, ht] at hex2
    exact execDenoteEq_of_ok op a b _ _ hex1 hex2
      (ltpScratchAssembled_denote_irrel op hop a.name b.name _ false true _ a b b.len)

theorem execDenoteEq_LtP_unitPrim (op : NumericListOp) (hop : op = .add ∨ op = .mul)
    (a b : Series) (ia : DataType) (tb : DType)
    (hda : a.dtype = .list ia) (hdb : b.dtype = .prim tb)
    (hb1 : b.len = 1) (ha1 : a.len ≠ 1) :
    execDenoteEq op a b := by
  have hA1 : applyTypeOf a.dtype b.dtype = .ok (.listToPrimitive, .list ia) := by
    rw [hda, hdb]; rfl
  have hA2 : applyTypeOf b.dtype a.dtype = .ok (.primitiveToList, .list ia) := by
    rw [hda, hdb]; rfl
  by_cases ha0 : a.len = 0
  · have hC1 : classifyLengths a.len b.len = .ok (.right, a.len) := by
      simp [classifyLengths, hb1, ha1]
    have hC2 : classifyLengths b.len a.len = .ok (.left, a.len) := by
      have h1' : (1 : Nat) ≠ a.len := fun hh => ha1 hh.symm
      simp [classifyLengths, hb1, h1']
    refine execDenoteEq_of_ok op a b _ _
      (execute_sc_ok op a b .listToPrimitive (.list ia) .right a.len
        hA1 hC1 (Or.inl ha0))
      (execute_sc_ok op b a .primitiveToList (.list ia) .left a.len
        hA2 hC2 (Or.inl ha0))
      ?_
    rw [denote_fullNull, denote_fullNull]
  · have hex1 := execute_LtP_right op a b ia tb hda hdb hb1 ha1 ha0
    have hex2 := execute_PtL_left op b a tb ia hdb hda hb1 ha1 ha0
    have houter : computeOuterValidity .primitiveToList .left
        b.rechunkValidity a.rechunkValidity a.len =
        computeOuterValidity .listToPrimitive .right
          a.rechunkValidity b.rechunkValidity a.len := rfl
    have ht : op.tryGetLeafSupertype b.dtype.leafDtype a.dtype.leafDtype =
        op.tryGetLeafSupertype a.dtype.leafDtype b.dtype.leafDtype :=
      tryGetLeafSupertype_comm op _ _
    rw [houter, ht] at hex2
    exact execDenoteEq_of_ok op a b _ _ hex1 hex2
      (ltpRightAssembled_denote_irrel op hop a.name b.name _ false true _ a b)

theorem execDenoteEq_LtP (op : NumericListOp) (hop : op = .add ∨ op = .mul)
    (a b : Series) (ia : DataType) (tb : DType)
    (hda : a.dtype = .list ia) (hdb : b.dtype = .prim tb) :
    execDenoteEq op a b := by
  by_cases h1 : a.len = b.len
  · exact execDenoteEq_LtP_eq op hop a b ia tb hda hdb h1
  · by_cases h2 : a.len = 1
    · exact execDenoteEq_LtP_unitList op hop a b ia tb hda hdb h2
        (fun hh => h1 (h2.trans hh.symm))
    · by_cases h3 : b.len = 1
      · exact execDenoteEq_LtP_unitPrim op hop a b ia tb hda hdb h3 h2
      · refine execDenoteEq_of_err op a b
          (.shapeMismatchLengths a.len b.len) (.shapeMismatchLengths b.len a.len)
          ?_ ?_
        · refine execute_classify_error op a b (.listToPrimitive, .list ia) _
            (by rw [hda, hdb]; rfl) ?_
          simp [classifyLengths, h1, h2, h3]
        · refine execute_classify_error op b a (.primitiveToList, .list ia) _
            (by rw [hda, hdb]; rfl) ?_
          have h1' : b.len ≠ a.len := fun hh => h1 hh.symm
          simp [classifyLengths, h1', h2, h3]

theorem execDenoteEq_LtL (op : NumericListOp) (hop : op = .add ∨ op = .mul)
    (a b : Series) (ta tb : DType)
    (hda : a.dtype = .list (.prim ta)) (hdb : b.dtype = .list (.prim tb))
    (hwa : a.WF) (hwb : b.WF) :
    execDenoteEq op a b := by
  by_cases h1 : a.len = b.len
  · exact execDenoteEq_LtL_eq op hop a b ta tb hda hdb hwa hwb h1
  · by_cases h2 : a.len = 1
    · exact execDenoteEq_LtL_unitLeft op hop a b ta tb hda hdb h2
        (fun hh => h1 (h2.trans hh.symm))
    · by_cases h3 : b.len = 1
      · exact execDenoteEq_symm op b a
          (execDenoteEq_LtL_unitLeft op hop b a tb ta hdb hda h3 h2)
      · refine execDenoteEq_of_err op a b
          (.shapeMismatchLengths a.len b.len) (.shapeMismatchLengths b.len a.len)
          ?_ ?_
        · refine execute_classify_error op a b (.listToList, .list (.prim ta)) _
            (by rw [hda, hdb]; rfl) ?_
          simp [classifyLengths, h1, h2, h3]
        · refine execute_classify_error op b a (.listToList, .list (.prim tb)) _
            (by rw [hda, hdb]; rfl) ?_
          have h1' : b.len ≠ a.len := fun hh => h1 hh.symm
          simp [classifyLengths, h1', h2, h3]

/-- C7: for `Add` and `Mul` the engine is symmetric in its operands:
`execute(op, a, b)` and `execute(op, b, a)` either both fail or both
succeed with element-for-element equal results (same values at
corresponding nested positions, same null pattern), the output name
aside; moreover the `swapped` flag set by the normalization rewrites is
ignored by `Add`/`Mul` kernels and reverses the argument order for
`Sub`, `Div`, `Rem` and `FloorDiv`. -/
theorem claim_C7 (op : NumericListOp) (a b : Series)
    (hop : op = .add ∨ op = .mul) (hwa : a.WF) (hwb : b.WF) :
    (∀ t sw l r, op.applyBin t sw l r = op.applyBin t false l r) ∧
    (∀ op2 : NumericListOp,
      (op2 = .sub ∨ op2 = .div ∨ op2 = .rem ∨ op2 = .floorDiv) →
      ∀ t l r, op2.applyBin t true l r = op2.applyBin t false r l) ∧
    execDenoteEq op a b := by
  refine ⟨fun t sw l r => applyBin_addmul_sw op hop t sw l r, ?_, ?_⟩
  · rintro op2 (h | h | h | h) t l r <;> subst h <;> rfl
  · cases hda : a.dtype with
    | prim ta =>
      cases hdb : b.dtype with
      | prim tb =>
        refine execDenoteEq_of_err op a b .invalidOperation .invalidOperation ?_ ?_
        · exact execute_applyType_error op a b _ (by rw [hda, hdb]; rfl)
        · exact execute_applyType_error op b a _ (by rw [hda, hdb]; rfl)
      | list ib =>
        exact execDenoteEq_symm op b a (execDenoteEq_LtP op hop b a ib ta hdb hda)
    | list ia =>
      cases hdb : b.dtype with
      | prim tb => exact execDenoteEq_LtP op hop a b ia tb hda hdb
      | list ib =>
        by_cases hp : ia.isPrim = true ∧ ib.isPrim = true
        · obtain ⟨ta, rfl⟩ := (isPrim_iff ia).mp hp.1
          obtain ⟨tb, rfl⟩ := (isPrim_iff ib).mp hp.2
          exact execDenoteEq_LtL op hop a b ta tb hda hdb hwa hwb
        · have hno : (ia.isPrim && ib.isPrim) = false := by
            cases h1 : ia.isPrim <;> cases h2 : ib.isPrim <;> simp_all
          have hno2 : (ib.isPrim && ia.isPrim) = false := by
            rw [Bool.and_comm]; exact hno
          refine execDenoteEq_of_err op a b .invalidOperation .invalidOperation ?_ ?_
          · refine execute_applyType_error op a b _ ?_
            rw [hda, hdb]
            simp [applyTypeOf, hno]
          · refine execute_applyType_error op b a _ ?_
            rw [hda, hdb]
            simp [applyTypeOf, hno2]

theorem claim_C7_witness :
    (NumericListOp.add = NumericListOp.add ∨ NumericListOp.add = NumericListOp.mul) ∧
    exC7a.WF ∧ exC7b.WF ∧
    ((∀ t sw l r, NumericListOp.add.applyBin t sw l r =
        NumericListOp.add.applyBin t false l r) ∧
     (∀ op2 : NumericListOp,
        (op2 = .sub ∨ op2 = .div ∨ op2 = .rem ∨ op2 = .floorDiv) →
        ∀ t l r, op2.applyBin t true l r = op2.applyBin t false r l) ∧
     execDenoteEq .add exC7a exC7b) :=
  ⟨Or.inl rfl, by decide, by decide,
   claim_C7 .add exC7a exC7b (Or.inl rfl) (by decide) (by decide)⟩

end PolarsList
